import Mathlib

/-!
Verification of the ACL4SSR rule-conversion scripts
(`ssr_to_quantumultx.py` and `ssr_to_shadowrocket.py`).

The two scripts are shallowly embedded below.  Strings are modelled as
`List Char` (`Str`), files as association lists, the thread pool as an
explicit processing order over the parsed rule-sets, and the network and
file system as explicit parameters.
-/

set_option maxHeartbeats 1000000
set_option maxRecDepth 100000

namespace SSRConv

/-- Python strings are modelled as lists of characters. -/
abbrev Str := List Char

/-- Coerce a Lean string literal into the `Str` model. -/
def chars (s : String) : Str := s.toList

/-- Whitespace characters removed by Python `str.strip()` (the ASCII ones;
the scripts only ever strip ASCII whitespace). -/
def isPySpace (c : Char) : Bool :=
  c = ' ' || c = '\t' || c = '\n' || c = '\r' || c = '\x0b' || c = '\x0c'

/-- Python `str.strip()`: drop leading and trailing whitespace. -/
def pyStrip (s : Str) : Str :=
  ((s.dropWhile isPySpace).reverse.dropWhile isPySpace).reverse

/-- Python `str.startswith(pat)`. -/
def startsWithStr : Str → Str → Bool
  | [], _ => true
  | _, [] => false
  | p :: ps, c :: cs => p = c && startsWithStr ps cs

/-- Remove a literal pattern from the front of a string, failing when the
string does not start with the pattern. -/
def dropLit : Str → Str → Option Str
  | [], s => some s
  | _, [] => none
  | p :: ps, c :: cs => if p = c then dropLit ps cs else none

/-- Python `str.split(sep)` for a one-character separator: split at every
occurrence, keeping empty fields (`"".split(",") = [""]`). -/
def splitOnChar (sep : Char) : Str → List Str
  | [] => [[]]
  | c :: cs =>
    let r := splitOnChar sep cs
    if c = sep then [] :: r
    else
      match r with
      | [] => [[c]]
      | h :: t => (c :: h) :: t

/-- Split a string at the first occurrence of `sep`, failing when `sep` does
not occur.  Models the regex fragment `([^,]*),` for `sep = ','`. -/
def splitFirst (sep : Char) : Str → Option (Str × Str)
  | [] => none
  | c :: cs =>
    if c = sep then some ([], cs)
    else
      match splitFirst sep cs with
      | none => none
      | some (a, b) => some (c :: a, b)

/-- Line-break characters recognised by Python `str.splitlines()`. -/
def isLineBreak (c : Char) : Bool :=
  c = '\n' || c = '\r' || c = '\x0b' || c = '\x0c' ||
  c = '\x1c' || c = '\x1d' || c = '\x1e' || c = '\x85' ||
  c = '\u2028' || c = '\u2029'

/-- Worker for `pySplitlines`; the accumulator holds the current line
reversed. -/
def splitlinesAux : Str → Str → List Str
  | [], acc => if acc.isEmpty then [] else [acc.reverse]
  | '\r' :: '\n' :: rest, acc => acc.reverse :: splitlinesAux rest []
  | c :: rest, acc =>
    if isLineBreak c then acc.reverse :: splitlinesAux rest []
    else splitlinesAux rest (c :: acc)

/-- Python `str.splitlines()`. -/
def pySplitlines (s : Str) : List Str := splitlinesAux s []

/-- Python `str.lower()` (ASCII case folding, which is all the scripts
compare). -/
def lowerStr (s : Str) : Str := s.map Char.toLower

/-- Decimal rendering of a natural number, as Python `str(n)` / f-string
interpolation of an `int`. -/
def natStr (n : Nat) : Str := (Nat.repr n).toList

/-- First-match lookup in an association list; models Python `dict.get` for
the dictionaries built by the scripts (whose keys are unique). -/
def lookupAssoc {β : Type} : List (Str × β) → Str → Option β
  | [], _ => none
  | p :: rest, k => if p.1 = k then some p.2 else lookupAssoc rest k

/-! ### MD5

Modelled from the Python standard library: `hashlib.md5(url.encode())`,
whose `hexdigest` keys the download cache.  `url.encode()` is UTF-8.
Bytes are naturals below 256, 32-bit words naturals below `2 ^ 32`.
-/

/-- UTF-8 encoding of one character (RFC 3629). -/
def utf8EncodeChar (c : Char) : List Nat :=
  let n := c.toNat
  if n < 128 then [n]
  else if n < 2048 then [192 + n / 64, 128 + n % 64]
  else if n < 65536 then [224 + n / 4096, 128 + n / 64 % 64, 128 + n % 64]
  else [240 + n / 262144, 128 + n / 4096 % 64, 128 + n / 64 % 64, 128 + n % 64]

/-- UTF-8 encoding of a string, as Python `str.encode()`. -/
def utf8Encode (s : Str) : List Nat := (s.map utf8EncodeChar).flatten

/-- Addition modulo `2 ^ 32`. -/
def add32 (a b : Nat) : Nat := (a + b) % 4294967296

/-- Bitwise complement on 32-bit words. -/
def not32 (a : Nat) : Nat := Nat.xor a 4294967295

/-- Left rotation of a 32-bit word by `s` places. -/
def rotl32 (x s : Nat) : Nat := ((x <<< s) ||| (x >>> (32 - s))) % 4294967296

/-- The 64 MD5 sine-derived constants. -/
def md5K : List Nat := [
  0xd76aa478, 0xe8c7b756, 0x242070db, 0xc1bdceee,
  0xf57c0faf, 0x4787c62a, 0xa8304613, 0xfd469501,
  0x698098d8, 0x8b44f7af, 0xffff5bb1, 0x895cd7be,
  0x6b901122, 0xfd987193, 0xa679438e, 0x49b40821,
  0xf61e2562, 0xc040b340, 0x265e5a51, 0xe9b6c7aa,
  0xd62f105d, 0x02441453, 0xd8a1e681, 0xe7d3fbc8,
  0x21e1cde6, 0xc33707d6, 0xf4d50d87, 0x455a14ed,
  0xa9e3e905, 0xfcefa3f8, 0x676f02d9, 0x8d2a4c8a,
  0xfffa3942, 0x8771f681, 0x6d9d6122, 0xfde5380c,
  0xa4beea44, 0x4bdecfa9, 0xf6bb4b60, 0xbebfbc70,
  0x289b7ec6, 0xeaa127fa, 0xd4ef3085, 0x04881d05,
  0xd9d4d039, 0xe6db99e5, 0x1fa27cf8, 0xc4ac5665,
  0xf4292244, 0x432aff97, 0xab9423a7, 0xfc93a039,
  0x655b59c3, 0x8f0ccc92, 0xffeff47d, 0x85845dd1,
  0x6fa87e4f, 0xfe2ce6e0, 0xa3014314, 0x4e0811a1,
  0xf7537e82, 0xbd3af235, 0x2ad7d2bb, 0xeb86d391]

/-- The 64 MD5 per-operation rotation amounts. -/
def md5S : List Nat := [
  7, 12, 17, 22, 7, 12, 17, 22, 7, 12, 17, 22, 7, 12, 17, 22,
  5, 9, 14, 20, 5, 9, 14, 20, 5, 9, 14, 20, 5, 9, 14, 20,
  4, 11, 16, 23, 4, 11, 16, 23, 4, 11, 16, 23, 4, 11, 16, 23,
  6, 10, 15, 21, 6, 10, 15, 21, 6, 10, 15, 21, 6, 10, 15, 21]

/-- One MD5 operation: `M` is the 16-word message block, `i` the operation
index. -/
def md5Op (M : List Nat) (st : Nat × Nat × Nat × Nat) (i : Nat) :
    Nat × Nat × Nat × Nat :=
  let A := st.1
  let B := st.2.1
  let C := st.2.2.1
  let D := st.2.2.2
  let Fg : Nat × Nat :=
    if i < 16 then ((B &&& C) ||| (not32 B &&& D), i)
    else if i < 32 then ((D &&& B) ||| (not32 D &&& C), (5 * i + 1) % 16)
    else if i < 48 then (Nat.xor (Nat.xor B C) D, (3 * i + 5) % 16)
    else (Nat.xor C (B ||| not32 D), (7 * i) % 16)
  let F2 := (Fg.1 + A + md5K.getD i 0 + M.getD Fg.2 0) % 4294967296
  (D, add32 B (rotl32 F2 (md5S.getD i 0)), B, C)

/-- Decode a 64-byte chunk into 16 little-endian 32-bit words. -/
def bytesToWords : List Nat → List Nat
  | b0 :: b1 :: b2 :: b3 :: rest =>
    (b0 + 256 * b1 + 65536 * b2 + 16777216 * b3) :: bytesToWords rest
  | _ => []

/-- Process one 64-byte chunk of the padded message. -/
def md5Chunk (st : Nat × Nat × Nat × Nat) (chunk : List Nat) :
    Nat × Nat × Nat × Nat :=
  let M := bytesToWords chunk
  let r := (List.range 64).foldl (md5Op M) st
  (add32 st.1 r.1, add32 st.2.1 r.2.1, add32 st.2.2.1 r.2.2.1,
   add32 st.2.2.2 r.2.2.2)

/-- Fuel-driven worker cutting a list into 64-byte chunks. -/
def chunksAux : Nat → List Nat → List (List Nat)
  | _, [] => []
  | 0, _ => []
  | fuel + 1, l => l.take 64 :: chunksAux fuel (l.drop 64)

/-- Cut a list into chunks of 64 bytes. -/
def chunksOf64 (l : List Nat) : List (List Nat) := chunksAux (l.length + 1) l

/-- Little-endian bytes of a 64-bit length field. -/
def le8 (n : Nat) : List Nat :=
  [n % 256, n / 2 ^ 8 % 256, n / 2 ^ 16 % 256, n / 2 ^ 24 % 256,
   n / 2 ^ 32 % 256, n / 2 ^ 40 % 256, n / 2 ^ 48 % 256, n / 2 ^ 56 % 256]

/-- MD5 padding: a `0x80` byte, zeros to 56 mod 64, then the bit length. -/
def md5Pad (msg : List Nat) : List Nat :=
  msg ++ 128 :: List.replicate ((119 - msg.length % 64) % 64) 0 ++
    le8 (msg.length * 8 % 2 ^ 64)

/-- The MD5 initial state. -/
def md5Init : Nat × Nat × Nat × Nat :=
  (0x67452301, 0xefcdab89, 0x98badcfe, 0x10325476)

/-- Little-endian bytes of a 32-bit word. -/
def wordLE (w : Nat) : List Nat :=
  [w % 256, w / 256 % 256, w / 65536 % 256, w / 16777216 % 256]

/-- The 16-byte MD5 digest of a byte string. -/
def md5Digest (msg : List Nat) : List Nat :=
  let st := (chunksOf64 (md5Pad msg)).foldl md5Chunk md5Init
  wordLE st.1 ++ wordLE st.2.1 ++ wordLE st.2.2.1 ++ wordLE st.2.2.2

/-- Lowercase hexadecimal digit. -/
def hexDigitCh (n : Nat) : Char :=
  if n < 10 then Char.ofNat (48 + n) else Char.ofNat (87 + n)

/-- Two lowercase hex digits of a byte. -/
def byteHex (b : Nat) : Str := [hexDigitCh (b / 16), hexDigitCh (b % 16)]

/-- `hashlib.md5(msg).hexdigest()`. -/
def md5Hex (msg : List Nat) : Str := ((md5Digest msg).map byteHex).flatten

/-- `get_cache_path` (both scripts, identical): the cache file is
`cache_dir / (md5 hex of the UTF-8 encoded URL) + ".txt"`. -/
def get_cache_path (cache_dir : Str) (url : Str) : Str :=
  cache_dir ++ chars "/" ++ md5Hex (utf8Encode url) ++ chars ".txt"

/-! ### The data model of the two scripts -/

/-- The generation mode: `GENERATE_MODE` is `"list"` or `"full"`. -/
inductive Mode
  | list
  | full
deriving DecidableEq

/-- `POLICY_MAP` of `ssr_to_quantumultx.py`. -/
def POLICY_MAP_qx : List (Str × Str) := [
  (chars "🎯 全球直连", chars "DIRECT"),
  (chars "🛑 广告拦截", chars "REJECT"),
  (chars "🍃 应用净化", chars "REJECT"),
  (chars "🆎 AdBlock", chars "REJECT"),
  (chars "🛡️ 隐私防护", chars "REJECT"),
  (chars "🚀 节点选择", chars "proxy"),
  (chars "🌍 国外媒体", chars "proxy"),
  (chars "🌏 国内媒体", chars "DIRECT"),
  (chars "🍎 苹果服务", chars "DIRECT"),
  (chars "🎥 奈飞视频", chars "proxy"),
  (chars "🎮 游戏平台", chars "proxy"),
  (chars "🎶 网易音乐", chars "DIRECT"),
  (chars "🐟 漏网之鱼", chars "proxy"),
  (chars "💬 OpenAi", chars "proxy"),
  (chars "📢 谷歌FCM", chars "proxy"),
  (chars "📲 电报消息", chars "proxy"),
  (chars "📹 油管视频", chars "proxy"),
  (chars "📺 巴哈姆特", chars "proxy"),
  (chars "📺 哔哩哔哩", chars "DIRECT"),
  (chars "🤖 AI", chars "proxy"),
  (chars "🎇 Anthropic", chars "proxy"),
  (chars "🎯 Github Copilot", chars "proxy"),
  (chars "🎯 Google", chars "proxy"),
  (chars "🎯 Other", chars "proxy"),
  (chars "🎯 Parsec", chars "proxy")]

/-- `POLICY_MAP` of `ssr_to_shadowrocket.py` (same keys, `PROXY` instead of
`proxy`). -/
def POLICY_MAP_sr : List (Str × Str) := [
  (chars "🎯 全球直连", chars "DIRECT"),
  (chars "🛑 广告拦截", chars "REJECT"),
  (chars "🍃 应用净化", chars "REJECT"),
  (chars "🆎 AdBlock", chars "REJECT"),
  (chars "🛡️ 隐私防护", chars "REJECT"),
  (chars "🚀 节点选择", chars "PROXY"),
  (chars "🌍 国外媒体", chars "PROXY"),
  (chars "🌏 国内媒体", chars "DIRECT"),
  (chars "🍎 苹果服务", chars "DIRECT"),
  (chars "🎥 奈飞视频", chars "PROXY"),
  (chars "🎮 游戏平台", chars "PROXY"),
  (chars "🎶 网易音乐", chars "DIRECT"),
  (chars "🐟 漏网之鱼", chars "PROXY"),
  (chars "💬 OpenAi", chars "PROXY"),
  (chars "📢 谷歌FCM", chars "PROXY"),
  (chars "📲 电报消息", chars "PROXY"),
  (chars "📹 油管视频", chars "PROXY"),
  (chars "📺 巴哈姆特", chars "PROXY"),
  (chars "📺 哔哩哔哩", chars "DIRECT"),
  (chars "🤖 AI", chars "PROXY"),
  (chars "🎇 Anthropic", chars "PROXY"),
  (chars "🎯 Github Copilot", chars "PROXY"),
  (chars "🎯 Google", chars "PROXY"),
  (chars "🎯 Other", chars "PROXY"),
  (chars "🎯 Parsec", chars "PROXY")]

/-- `RULE_TYPE_MAP` of `ssr_to_quantumultx.py`. -/
def RULE_TYPE_MAP_qx : List (Str × Str) := [
  (chars "DOMAIN", chars "HOST"),
  (chars "DOMAIN-SUFFIX", chars "HOST-SUFFIX"),
  (chars "DOMAIN-KEYWORD", chars "HOST-KEYWORD"),
  (chars "IP-CIDR", chars "IP-CIDR"),
  (chars "IP-CIDR6", chars "IP-CIDR6"),
  (chars "GEOIP", chars "GEOIP"),
  (chars "MATCH", chars "FINAL")]

/-- `RULE_TYPE_MAP` of `ssr_to_shadowrocket.py` (no `IP-CIDR6` entry). -/
def RULE_TYPE_MAP_sr : List (Str × Str) := [
  (chars "DOMAIN", chars "DOMAIN"),
  (chars "DOMAIN-SUFFIX", chars "DOMAIN-SUFFIX"),
  (chars "DOMAIN-KEYWORD", chars "DOMAIN-KEYWORD"),
  (chars "IP-CIDR", chars "IP-CIDR"),
  (chars "GEOIP", chars "GEOIP"),
  (chars "MATCH", chars "FINAL")]

/-! ### The directive-file parser -/

/-- The capturing part `([^,]+),(.+)` of the ruleset regex, applied after
the literal prefix: `([^,]+)` captures the maximal comma-free prefix,
`(.+)` the remainder up to the first newline (an unanchored `.` does not
match `'\n'`). -/
def regexMatchGroups (rest : Str) : Option (Str × Str) :=
  match splitFirst ',' rest with
  | none => none
  | some (g0, t) =>
    if g0.isEmpty then none
    else
      let s0 := t.takeWhile (fun c => c ≠ '\n')
      if s0.isEmpty then none else some (g0, s0)

/-- The regex `re.match(r"ruleset=([^,]+),(.+)", line)` applied to a
(stripped) line, returning the two captured groups. -/
def regexMatchRuleset (l : Str) : Option (Str × Str) :=
  match dropLit (chars "ruleset=") l with
  | none => none
  | some rest => regexMatchGroups rest

/-- One line of the loop body of `parse_acl4ssr_ini`: strip the line, check
the `ruleset=` prefix, run the regex, and strip both captured groups. -/
def parseRulesetLine (line : Str) : Option (Str × Str) :=
  let l := pyStrip line
  if startsWithStr (chars "ruleset=") l then
    match regexMatchRuleset l with
    | some gs => some (pyStrip gs.1, pyStrip gs.2)
    | none => none
  else none

/-- The lines of a text file, as iterated by `for line in f` (text mode with
universal newlines, so lines are separated by `'\n'`; the terminator itself
is removed by the `strip` in `parseRulesetLine`). -/
def fileLines (content : Str) : List Str := splitOnChar '\n' content

/-- `parse_acl4ssr_ini` (both scripts, identical): collect, in file order,
the `(policy_group, rule_url)` pairs of all matching `ruleset=` lines. -/
def parse_acl4ssr_ini (content : Str) : List (Str × Str) :=
  (fileLines content).filterMap parseRulesetLine

/-! ### The fetch-with-cache-fallback primitive

`download_rule_file` does I/O; its environment (does the cache file exist,
what does reading it yield, what does the single `urlopen` yield) is made
an explicit value.  The `Nat` component of the result counts how many HTTP
fetch attempts were performed.
-/

/-- Outcome of the one `urllib.request.urlopen` call. -/
inductive FetchResult
  | ok (content : Str)
  | urlError
  | otherError
deriving DecidableEq

/-- The I/O environment of one `download_rule_file` call. -/
structure DownloadEnv where
  cacheExists : Bool
  cacheRead : Option Str
  fetch : FetchResult
deriving DecidableEq

/-- The part of `download_rule_file` from the `urlopen` call on: on success
return the body (the cache write does not affect the return value), on
`URLError` fall back to the cache if it exists and is readable, on any
other exception return `None`. -/
def downloadFetchStep (env : DownloadEnv) : Option Str × Nat :=
  match env.fetch with
  | .ok content => (some content, 1)
  | .urlError =>
    if env.cacheExists then
      match env.cacheRead with
      | some c => (some c, 1)
      | none => (none, 1)
    else (none, 1)
  | .otherError => (none, 1)

/-- `download_rule_file` (both scripts, identical): serve a readable cache
file first when `use_cache` is set, otherwise attempt the single fetch. -/
def download_rule_file (env : DownloadEnv) (use_cache : Bool) :
    Option Str × Nat :=
  if use_cache && env.cacheExists then
    match env.cacheRead with
    | some c => (some c, 0)
    | none => downloadFetchStep env
  else downloadFetchStep env

/-! ### The rule translators -/

/-- `final_policy` of the Quantumult X converter: the `POLICY_MAP` entry
(default `proxy`) in list mode, the policy-group name in full mode. -/
def qxPolicy (mode : Mode) (policy_group : Str) : Str :=
  if mode = Mode.list then (lookupAssoc POLICY_MAP_qx policy_group).getD (chars "proxy")
  else policy_group

/-- The `flags` list for an IP rule: the non-empty extra fields, with
`no-resolve` appended when no extra equals it case-insensitively. -/
def qxFlags (extras : List Str) : List Str :=
  let flags := extras.filter (fun f => ¬ f.isEmpty)
  if flags.any (fun f => lowerStr f = chars "no-resolve") then flags
  else flags ++ [chars "no-resolve"]

/-- The `flag_part` appended after the policy of an IP rule. -/
def qxFlagPart (extras : List Str) : Str :=
  if (qxFlags extras).isEmpty then ([] : Str)
  else ',' :: List.intercalate (chars ",") (qxFlags extras)

/-- The dispatch on `mapped_type` in `convert_clash_rule_to_quantumult`,
after the line has been split into non-empty stripped fields
`rule_type_raw :: rule_value :: extras` and the type mapped through
`RULE_TYPE_MAP`. -/
def qxDispatch (mode : Mode) (policy_group : Str) (mapped_type rule_value : Str)
    (extras : List Str) : Option Str :=
  if mapped_type = chars "HOST" ∨ mapped_type = chars "HOST-SUFFIX" ∨
      mapped_type = chars "HOST-KEYWORD" then
    some (mapped_type ++ ',' :: rule_value ++ ',' :: qxPolicy mode policy_group)
  else if mapped_type = chars "IP-CIDR" ∨ mapped_type = chars "IP-CIDR6" then
    some (mapped_type ++ ',' :: rule_value ++ ',' :: qxPolicy mode policy_group
      ++ qxFlagPart extras)
  else if mapped_type = chars "GEOIP" then
    some (chars "GEOIP," ++ rule_value ++ ',' :: qxPolicy mode policy_group)
  else if mapped_type = chars "FINAL" then
    some (chars "FINAL," ++ qxPolicy mode policy_group)
  else none

/-- `convert_clash_rule_to_quantumult`: strip, drop blanks and comments,
split on commas into stripped non-empty fields, map the type through
`RULE_TYPE_MAP` and dispatch. -/
def convert_clash_rule_to_quantumult (mode : Mode) (rule policy_group : Str) :
    Option Str :=
  let r := pyStrip rule
  if r.isEmpty then none
  else if startsWithStr (chars "#") r then none
  else
    match ((splitOnChar ',' r).map pyStrip).filter (fun p => ¬ p.isEmpty) with
    | rule_type_raw :: rule_value :: extras =>
      match lookupAssoc RULE_TYPE_MAP_qx rule_type_raw with
      | none => none
      | some mapped_type => qxDispatch mode policy_group mapped_type rule_value extras
    | _ => none

/-- `final_policy` of the Shadowrocket converter. -/
def srPolicy (mode : Mode) (policy_group : Str) : Str :=
  if mode = Mode.list then (lookupAssoc POLICY_MAP_sr policy_group).getD (chars "PROXY")
  else policy_group

/-- The dispatch on `rule_type` in `convert_clash_rule_to_shadowrocket`:
an if-chain over the six supported types (any extra input fields are
dropped; `IP-CIDR` always gains `,no-resolve`). -/
def srDispatch (mode : Mode) (policy_group : Str) (rule_type rule_value : Str) :
    Option Str :=
  if rule_type = chars "DOMAIN" ∨ rule_type = chars "DOMAIN-SUFFIX" ∨
      rule_type = chars "DOMAIN-KEYWORD" then
    some (rule_type ++ ',' :: rule_value ++ ',' :: srPolicy mode policy_group)
  else if rule_type = chars "IP-CIDR" then
    some (rule_type ++ ',' :: rule_value ++ ',' :: srPolicy mode policy_group
      ++ chars ",no-resolve")
  else if rule_type = chars "GEOIP" then
    some (rule_type ++ ',' :: rule_value ++ ',' :: srPolicy mode policy_group)
  else if rule_type = chars "MATCH" then
    some (chars "FINAL," ++ srPolicy mode policy_group)
  else none

/-- `convert_clash_rule_to_shadowrocket`: strip, drop blanks and comments,
split on commas (keeping empty fields), require at least two fields, strip
the first two and dispatch. -/
def convert_clash_rule_to_shadowrocket (mode : Mode) (rule policy_group : Str) :
    Option Str :=
  let r := pyStrip rule
  if r.isEmpty then none
  else if startsWithStr (chars "#") r then none
  else
    let parts := splitOnChar ',' r
    if parts.length < 2 then none
    else srDispatch mode policy_group (pyStrip (parts.getD 0 [])) (pyStrip (parts.getD 1 []))

/-! ### The shared pipeline: rule-set processing and output generation

`converted_rules` is a Python `dict` mapping policy-group names to rule
lists; it is modelled as an association list in insertion order with unique
keys (lookups and updates touch the first matching entry).
-/

/-- The `converted_rules` dictionary. -/
abbrev RulesDict := List (Str × List Str)

/-- Python `key in dict`. -/
def dictContains (d : RulesDict) (g : Str) : Bool := d.any (fun p => p.1 = g)

/-- `if policy_group not in self.converted_rules:
self.converted_rules[policy_group] = []` — dict insertion appends the new
key at the end. -/
def ensureKey (d : RulesDict) (g : Str) : RulesDict :=
  if dictContains d g then d else d ++ [(g, [])]

/-- `self.converted_rules[policy_group].append(rule)`. -/
def dictAppend : RulesDict → Str → Str → RulesDict
  | [], _, _ => []
  | p :: rest, g, r =>
    if p.1 = g then (p.1, p.2 ++ [r]) :: rest else p :: dictAppend rest g r

/-- Appending a whole list of rules to one policy group's list. -/
def dictAppendList (d : RulesDict) (g : Str) (l : List Str) : RulesDict :=
  l.foldl (fun d r => dictAppend d g r) d

/-- The per-target data of the two scripts: the policy map, the rule
translator, the title used in output headers, and the full-config
generator. -/
structure Target where
  title : Str
  policyMap : List (Str × Str)
  convertRule : Mode → Str → Str → Option Str
  fullConfigName : Str
  fullConfig : RulesDict → Str

/-- `POLICY_MAP.get(policy_group, policy_group)` as used for special
rules. -/
def policyOrGroup (pm : List (Str × Str)) (g : Str) : Str :=
  (lookupAssoc pm g).getD g

/-- The body of the per-line loop in `process_ruleset`: append the
converted rule when the conversion is truthy (non-`None` and non-empty). -/
def processLine (t : Target) (mode : Mode) (g : Str) (d : RulesDict)
    (line : Str) : RulesDict :=
  match t.convertRule mode line g with
  | some conv => if conv.isEmpty then d else dictAppend d g conv
  | none => d

/-- `process_ruleset`: ensure the policy group's entry exists, then either
handle a `[]`-special rule (`[]FINAL` or `[]GEOIP,…`) or fetch the rule
file (`fetch` is the result of `download_rule_file` for each URL) and
convert it line by line. -/
def process_ruleset (t : Target) (mode : Mode) (fetch : Str → Option Str)
    (d : RulesDict) (g rule_def : Str) : RulesDict :=
  let d := ensureKey d g
  if startsWithStr (chars "[") rule_def then
    let special := rule_def.drop 2
    if special = chars "FINAL" then
      dictAppend d g (chars "FINAL," ++ policyOrGroup t.policyMap g)
    else if startsWithStr (chars "GEOIP,") special then
      dictAppend d g
        (chars "GEOIP," ++ (splitOnChar ',' special).getD 1 [] ++ ',' ::
          policyOrGroup t.policyMap g)
    else d
  else
    match fetch rule_def with
    | none => d
    | some content =>
      if content.isEmpty then d
      else (pySplitlines content).foldl (processLine t mode g) d

/-- The truthy conversion of one line: `some` exactly when the translated
rule is appended by the loop in `process_ruleset`. -/
def truthyConv (t : Target) (mode : Mode) (g line : Str) : Option Str :=
  match t.convertRule mode line g with
  | some conv => if conv.isEmpty then none else some conv
  | none => none

/-- The contribution a single `process_ruleset` call appends to its policy
group's rule list. -/
def rulesetContribution (t : Target) (mode : Mode) (fetch : Str → Option Str)
    (g rule_def : Str) : List Str :=
  if startsWithStr (chars "[") rule_def then
    let special := rule_def.drop 2
    if special = chars "FINAL" then
      [chars "FINAL," ++ policyOrGroup t.policyMap g]
    else if startsWithStr (chars "GEOIP,") special then
      [chars "GEOIP," ++ (splitOnChar ',' special).getD 1 [] ++ ',' ::
        policyOrGroup t.policyMap g]
    else []
  else
    match fetch rule_def with
    | none => []
    | some content =>
      if content.isEmpty then []
      else (pySplitlines content).filterMap (truthyConv t mode g)

/-! ### Output generation -/

/-- A file written by `generate_output_files` or `generate_full_config`,
tagged by which write produced it. -/
inductive OutFile
  | group (name : Str) (content : Str)
  | all (content : Str)
  | fullconf (name : Str) (content : Str)
deriving DecidableEq

/-- The file extension for the current mode. -/
def extOf (mode : Mode) : Str :=
  if mode = Mode.list then chars ".list" else chars ".conf"

/-- The mode name interpolated into headers. -/
def modeStr (mode : Mode) : Str :=
  if mode = Mode.list then chars "list" else chars "full"

/-- The content of a per-policy-group output file: a four-line header, a
blank line, then one line per rule. -/
def groupFileContent (t : Target) (mode : Mode) (g : Str) (rules : List Str) :
    Str :=
  chars "# " ++ t.title ++ chars " Rules for " ++ g ++ chars "\n" ++
  chars "# Generated from ACL4SSR.ini\n" ++
  chars "# Mode: " ++ modeStr mode ++ chars "\n" ++
  chars "# Total rules: " ++ natStr rules.length ++ chars "\n\n" ++
  (rules.map (fun r => r ++ chars "\n")).flatten

/-- The content of the combined `ALL` output file. -/
def allFileContent (t : Target) (mode : Mode) (all_rules : List Str) : Str :=
  chars "# " ++ t.title ++ chars " Rules - ALL\n" ++
  chars "# Generated from ACL4SSR.ini\n" ++
  chars "# Mode: " ++ modeStr mode ++ chars "\n" ++
  chars "# Total rules: " ++ natStr all_rules.length ++ chars "\n\n" ++
  (all_rules.map (fun r => r ++ chars "\n")).flatten

/-- The loop of `generate_output_files` over `converted_rules.items()`:
write one file per non-empty group and extend `all_rules`. -/
def outputLoop (t : Target) (mode : Mode) : RulesDict → List OutFile × List Str
  | [] => ([], [])
  | (g, rules) :: rest =>
    if rules.isEmpty then outputLoop t mode rest
    else (OutFile.group g (groupFileContent t mode g rules) ::
            (outputLoop t mode rest).1,
          rules ++ (outputLoop t mode rest).2)

/-- `generate_output_files`: the per-group files, then the `ALL` file when
any rule exists, then (in full mode) the full config. -/
def generate_output_files (t : Target) (mode : Mode) (d : RulesDict) :
    List OutFile :=
  let r := outputLoop t mode d
  r.1 ++
  (if r.2.isEmpty then [] else [OutFile.all (allFileContent t mode r.2)]) ++
  (if mode = Mode.full then [OutFile.fullconf t.fullConfigName (t.fullConfig d)] else [])

/-- The `seen`-set deduplication over `converted_rules.keys()` in
`generate_full_config` of the Quantumult X script. -/
def seenDedup : List Str → List Str → List Str
  | [], _ => []
  | g :: rest, seen =>
    if g ∈ seen then seenDedup rest seen else g :: seenDedup rest (g :: seen)

/-- The `[filter_local]` / `[Rule]` body shared by both full configs: a
comment line and the rules for every non-empty group. -/
def fullRulesSection (d : RulesDict) : Str :=
  (d.map (fun p =>
    if p.2.isEmpty then ([] : Str)
    else chars "# " ++ p.1 ++ chars "\n" ++
      (p.2.map (fun r => r ++ chars "\n")).flatten ++ chars "\n")).flatten

/-- `generate_full_config` of `ssr_to_quantumultx.py`. -/
def generate_full_config_qx (d : RulesDict) : Str :=
  chars "[general]\nbypass-system=true\nserver_check_url=http://www.gstatic.com/generate_204\ndns_exclusion_list=*.local,localhost\nipv6=true\n\n" ++
  chars "[dns]\nprefer-doh=false\nserver=system\nipv6=true\n\n" ++
  chars "[policy]\n" ++
  ((seenDedup (d.map Prod.fst) []).map
    (fun g => chars "static=" ++ g ++ chars ", proxy, direct, reject\n")).flatten ++
  chars "static=PROXY, proxy\nstatic=DIRECT, direct\nstatic=REJECT, reject\n\n" ++
  chars "[filter_local]\n# Generated from ACL4SSR.ini\n\n" ++
  fullRulesSection d ++
  chars "[rewrite_local]\n\n[http_backend]\n\n[task_local]\n\n[mitm]\n"

/-- `generate_full_config` of `ssr_to_shadowrocket.py`. -/
def generate_full_config_sr (d : RulesDict) : Str :=
  chars "[General]\nbypass-system = true\nskip-proxy = 192.168.0.0/16, 10.0.0.0/8, 172.16.0.0/12, localhost, *.local\ndns-server = system\nipv6 = true\nprefer-ipv6 = false\n\n" ++
  chars "[Rule]\n# Generated from ACL4SSR.ini\n\n" ++
  fullRulesSection d ++
  chars "[Host]\nlocalhost = 127.0.0.1\n\n" ++
  chars "[URL Rewrite]\n^https?://(www.)?g.cn https://www.google.com 302\n^https?://(www.)?google.cn https://www.google.com 302\n"

/-- The Quantumult X script as a `Target`. -/
def qxTarget : Target where
  title := chars "Quantumult X"
  policyMap := POLICY_MAP_qx
  convertRule := convert_clash_rule_to_quantumult
  fullConfigName := chars "quantumultx_full.conf"
  fullConfig := generate_full_config_qx

/-- The Shadowrocket script as a `Target`. -/
def srTarget : Target where
  title := chars "Shadowrocket"
  policyMap := POLICY_MAP_sr
  convertRule := convert_clash_rule_to_shadowrocket
  fullConfigName := chars "shadowrocket_full.conf"
  fullConfig := generate_full_config_sr

/-! ### The full pipeline

`convert` submits one `process_ruleset` task per parsed rule-set to a
`ThreadPoolExecutor`; the tasks mutate the shared `converted_rules` dict.
The nondeterministic thread schedule is modelled by an explicit processing
`order`: a run executes the rule-set tasks (atomically) in the order of the
indices listed in `order`.  The submission order `[0, 1, …]` corresponds to
a serial execution. -/

/-- The `converted_rules` dict resulting from processing the parsed
rule-sets of `ini` in the given order. -/
def pipelineDict (t : Target) (mode : Mode) (fetch : Str → Option Str)
    (ini : Str) (order : List Nat) : RulesDict :=
  let rs := parse_acl4ssr_ini ini
  (order.filterMap (fun i => rs[i]?)).foldl
    (fun d p => process_ruleset t mode fetch d p.1 p.2) []

/-- `convert`: parse the directive file, process every rule-set, and
generate the output files. -/
def runPipeline (t : Target) (mode : Mode) (fetch : Str → Option Str)
    (ini : Str) (order : List Nat) : List OutFile :=
  generate_output_files t mode (pipelineDict t mode fetch ini order)

/-- The contents of the combined `ALL` files among the written files. -/
def allContents (files : List OutFile) : List Str :=
  files.filterMap (fun f =>
    match f with
    | OutFile.all c => some c
    | _ => none)

/-- All converted rules of a run, in dict order. -/
def allRules (d : RulesDict) : List Str := (d.map Prod.snd).flatten

/-- A two-rule-set directive file used as a concrete input. -/
def cexIni : Str := chars "ruleset=A,u1\nruleset=B,u2"

/-- Resolved contents for the two rule sources of `cexIni`. -/
def cexFetch : Str → Option Str := fun u =>
  if u = chars "u1" then some (chars "DOMAIN,a.com")
  else if u = chars "u2" then some (chars "DOMAIN,b.com")
  else none

/-! ### Lemmas about the string primitives -/

theorem startsWithStr_iff_exists {p s : Str} :
    startsWithStr p s = true ↔ ∃ t, s = p ++ t := by
  induction p generalizing s with
  | nil =>
    simp only [startsWithStr, List.nil_append, true_iff]
    exact ⟨s, rfl⟩
  | cons a ps ih =>
    cases s with
    | nil =>
      refine iff_of_false (by simp [startsWithStr]) ?_
      rintro ⟨t, h⟩
      exact List.noConfusion h
    | cons c cs =>
      simp only [startsWithStr, Bool.and_eq_true, decide_eq_true_eq, ih,
        List.cons_append]
      constructor
      · rintro ⟨rfl, t, rfl⟩
        exact ⟨t, rfl⟩
      · rintro ⟨t, h⟩
        injection h with h1 h2
        exact ⟨h1.symm, t, h2⟩

theorem startsWithStr_append {p t : Str} :
    startsWithStr p (p ++ t) = true :=
  startsWithStr_iff_exists.mpr ⟨t, rfl⟩

theorem dropLit_eq_some {p s t : Str} :
    dropLit p s = some t ↔ s = p ++ t := by
  induction p generalizing s with
  | nil =>
    simp only [dropLit, Option.some.injEq, List.nil_append]
  | cons a ps ih =>
    cases s with
    | nil =>
      refine iff_of_false (by simp [dropLit]) ?_
      rintro h
      exact List.noConfusion h
    | cons c cs =>
      simp only [dropLit, List.cons_append]
      by_cases hac : a = c
      · subst hac
        rw [if_pos rfl, ih]
        simp
      · rw [if_neg hac]
        refine iff_of_false (by simp) ?_
        intro h
        injection h with h1 _
        exact hac h1.symm

theorem splitFirst_eq_some {sep : Char} {s a b : Str} :
    splitFirst sep s = some (a, b) ↔ s = a ++ sep :: b ∧ sep ∉ a := by
  induction s generalizing a b with
  | nil =>
    refine iff_of_false (by simp [splitFirst]) ?_
    rintro ⟨h, _⟩
    cases a <;> exact List.noConfusion h
  | cons c cs ih =>
    by_cases hc : c = sep
    · subst hc
      rw [splitFirst, if_pos rfl]
      simp only [Option.some.injEq, Prod.mk.injEq]
      constructor
      · rintro ⟨rfl, rfl⟩
        exact ⟨rfl, List.not_mem_nil c⟩
      · rintro ⟨h, hna⟩
        cases a with
        | nil =>
          injection h with _ h2
          exact ⟨rfl, h2⟩
        | cons x xs =>
          injection h with h1 _
          exact absurd (h1 ▸ List.mem_cons_self x xs) hna
    · rw [splitFirst, if_neg hc]
      cases h' : splitFirst sep cs with
      | none =>
        refine iff_of_false (by simp) ?_
        rintro ⟨h, hna⟩
        cases a with
        | nil =>
          injection h with h1
          exact hc h1
        | cons x xs =>
          injection h with h1 h2
          subst h1
          have hx : splitFirst sep cs = some (xs, b) :=
            ih.mpr ⟨h2, fun hm => hna (List.mem_cons_of_mem _ hm)⟩
          exact Option.noConfusion (h' ▸ hx)
      | some ab =>
        obtain ⟨a', b'⟩ := ab
        have ihs := ih.mp h'
        simp only [Option.some.injEq, Prod.mk.injEq]
        constructor
        · rintro ⟨rfl, rfl⟩
          refine ⟨by rw [ihs.1]; rfl, ?_⟩
          intro hm
          rcases List.mem_cons.mp hm with h1 | h1
          · exact hc h1.symm
          · exact ihs.2 h1
        · rintro ⟨h, hna⟩
          cases a with
          | nil =>
            injection h with h1
            exact absurd h1 hc
          | cons x xs =>
            injection h with h1 h2
            subst h1
            have hx : splitFirst sep cs = some (xs, b) :=
              ih.mpr ⟨h2, fun hm => hna (List.mem_cons_of_mem _ hm)⟩
            rw [h'] at hx
            injection hx with hx
            injection hx with e1 e2
            exact ⟨by rw [e1], e2⟩

theorem mem_of_mem_dropWhile {p : Char → Bool} {c : Char} {l : Str}
    (h : c ∈ l.dropWhile p) : c ∈ l := by
  induction l with
  | nil => simp at h
  | cons a as ih =>
    by_cases hp : p a
    · rw [List.dropWhile_cons, if_pos hp] at h
      exact List.mem_cons_of_mem _ (ih h)
    · rw [List.dropWhile_cons, if_neg hp] at h
      exact h

theorem mem_of_mem_pyStrip {c : Char} {s : Str} (h : c ∈ pyStrip s) : c ∈ s := by
  unfold pyStrip at h
  rw [List.mem_reverse] at h
  have h1 := mem_of_mem_dropWhile h
  rw [List.mem_reverse] at h1
  exact mem_of_mem_dropWhile h1

theorem splitOnChar_ne_nil {sep : Char} {s : Str} : splitOnChar sep s ≠ [] := by
  cases s with
  | nil => simp [splitOnChar]
  | cons c cs =>
    rw [splitOnChar]
    by_cases hc : c = sep
    · simp [hc]
    · rw [if_neg hc]
      cases splitOnChar sep cs <;> simp

theorem not_mem_of_mem_splitOnChar {sep : Char} {s p : Str}
    (h : p ∈ splitOnChar sep s) : sep ∉ p := by
  induction s generalizing p with
  | nil =>
    simp only [splitOnChar, List.mem_singleton] at h
    subst h
    exact List.not_mem_nil sep
  | cons c cs ih =>
    rw [splitOnChar] at h
    by_cases hc : c = sep
    · rw [if_pos hc] at h
      rcases List.mem_cons.mp h with h1 | h1
      · subst h1; exact List.not_mem_nil sep
      · exact ih h1
    · rw [if_neg hc] at h
      cases hr : splitOnChar sep cs with
      | nil => exact absurd hr splitOnChar_ne_nil
      | cons hd tl =>
        rw [hr] at h
        rcases List.mem_cons.mp h with h1 | h1
        · subst h1
          intro hm
          rcases List.mem_cons.mp hm with h2 | h2
          · exact hc h2.symm
          · exact ih (hr ▸ List.mem_cons_self hd tl) h2
        · exact ih (hr ▸ List.mem_cons_of_mem hd h1)

theorem splitOnChar_append_cons {sep : Char} {a rest : Str} (ha : sep ∉ a) :
    splitOnChar sep (a ++ sep :: rest) = a :: splitOnChar sep rest := by
  induction a with
  | nil => simp [splitOnChar]
  | cons x xs ih =>
    have hx : x ≠ sep := fun h => ha (h ▸ List.mem_cons_self x xs)
    rw [List.cons_append, splitOnChar, if_neg hx,
      ih (fun hm => ha (List.mem_cons_of_mem x hm))]

theorem splitOnChar_eq_self {sep : Char} {s : Str} (hs : sep ∉ s) :
    splitOnChar sep s = [s] := by
  induction s with
  | nil => rfl
  | cons c cs ih =>
    have hc : c ≠ sep := fun h => hs (h ▸ List.mem_cons_self c cs)
    rw [splitOnChar, if_neg hc, ih (fun hm => hs (List.mem_cons_of_mem c hm))]

theorem splitOnChar_intercalate {sep : Char} {flags : List Str}
    (hne : flags ≠ []) (hf : ∀ f ∈ flags, sep ∉ f) :
    splitOnChar sep (List.intercalate [sep] flags) = flags := by
  induction flags with
  | nil => exact absurd rfl hne
  | cons f fs ih =>
    cases fs with
    | nil =>
      have h1 : List.intercalate [sep] [f] = f := by
        simp [List.intercalate, List.intersperse]
      rw [h1]
      exact splitOnChar_eq_self (hf f (List.mem_cons_self f []))
    | cons f2 fs2 =>
      have : List.intercalate [sep] (f :: f2 :: fs2)
          = f ++ sep :: List.intercalate [sep] (f2 :: fs2) := by
        simp [List.intercalate, List.intersperse]
      rw [this, splitOnChar_append_cons (hf f (List.mem_cons_self _ _)),
        ih (by simp) (fun g hg => hf g (List.mem_cons_of_mem f hg))]

/-! ### Lemmas about the converted-rules dictionary -/

theorem lookupAssoc_dictAppend_self {d : RulesDict} {g : Str} {r : Str} :
    lookupAssoc (dictAppend d g r) g = (lookupAssoc d g).map (fun l => l ++ [r]) := by
  induction d with
  | nil => rfl
  | cons p rest ih =>
    by_cases hp : p.1 = g
    · rw [dictAppend, if_pos hp, lookupAssoc, lookupAssoc, if_pos hp, if_pos hp]
      rfl
    · rw [dictAppend, if_neg hp, lookupAssoc, lookupAssoc, if_neg hp, if_neg hp, ih]

theorem lookupAssoc_dictAppend_ne {d : RulesDict} {g k : Str} {r : Str}
    (h : k ≠ g) :
    lookupAssoc (dictAppend d g r) k = lookupAssoc d k := by
  induction d with
  | nil => rfl
  | cons p rest ih =>
    by_cases hp : p.1 = g
    · have hpk : ¬ p.1 = k := fun hk => h (hk ▸ hp)
      rw [dictAppend, if_pos hp, lookupAssoc, lookupAssoc, if_neg hpk, if_neg hpk]
    · by_cases hpk : p.1 = k
      · rw [dictAppend, if_neg hp, lookupAssoc, lookupAssoc, if_pos hpk, if_pos hpk]
      · rw [dictAppend, if_neg hp, lookupAssoc, lookupAssoc, if_neg hpk, if_neg hpk, ih]

theorem dictContains_iff_lookup {d : RulesDict} {g : Str} :
    dictContains d g = true ↔ (lookupAssoc d g).isSome := by
  induction d with
  | nil => simp [dictContains, lookupAssoc]
  | cons p rest ih =>
    by_cases hp : p.1 = g
    · simp [dictContains, lookupAssoc, hp]
    · simp only [dictContains, List.any_cons, Bool.or_eq_true, decide_eq_true_eq,
        lookupAssoc, if_neg hp]
      simp only [dictContains] at ih
      simp [hp, ih]

theorem lookupAssoc_append_of_none {β : Type} {d d2 : List (Str × β)} {k : Str}
    (h : lookupAssoc d k = none) :
    lookupAssoc (d ++ d2) k = lookupAssoc d2 k := by
  induction d with
  | nil => rfl
  | cons p rest ih =>
    by_cases hp : p.1 = k
    · rw [lookupAssoc, if_pos hp] at h
      exact Option.noConfusion h
    · rw [lookupAssoc, if_neg hp] at h
      rw [List.cons_append, lookupAssoc, if_neg hp]
      exact ih h

theorem lookupAssoc_append_of_some {β : Type} {d d2 : List (Str × β)} {k : Str}
    {v : β} (h : lookupAssoc d k = some v) :
    lookupAssoc (d ++ d2) k = some v := by
  induction d with
  | nil => exact Option.noConfusion h
  | cons p rest ih =>
    by_cases hp : p.1 = k
    · rw [lookupAssoc, if_pos hp] at h
      rw [List.cons_append, lookupAssoc, if_pos hp]
      exact h
    · rw [lookupAssoc, if_neg hp] at h
      rw [List.cons_append, lookupAssoc, if_neg hp]
      exact ih h

theorem lookupAssoc_ensureKey_self {d : RulesDict} {g : Str} :
    lookupAssoc (ensureKey d g) g = some ((lookupAssoc d g).getD []) := by
  rw [ensureKey]
  by_cases hc : dictContains d g = true
  · rw [if_pos hc]
    rcases ho : lookupAssoc d g with _ | l
    · exact absurd (dictContains_iff_lookup.mp hc) (by rw [ho]; simp)
    · rfl
  · rw [if_neg hc]
    have ho : lookupAssoc d g = none := by
      rcases ho : lookupAssoc d g with _ | l
      · rfl
      · exact absurd (dictContains_iff_lookup.mpr (by rw [ho]; rfl)) hc
    rw [lookupAssoc_append_of_none ho, ho]
    rw [lookupAssoc, if_pos rfl]
    rfl

theorem lookupAssoc_ensureKey_ne {d : RulesDict} {g k : Str} (h : k ≠ g) :
    lookupAssoc (ensureKey d g) k = lookupAssoc d k := by
  rw [ensureKey]
  by_cases hc : dictContains d g = true
  · rw [if_pos hc]
  · rw [if_neg hc]
    rcases ho : lookupAssoc d k with _ | v
    · rw [lookupAssoc_append_of_none ho, lookupAssoc,
        if_neg (fun hk => h hk.symm)]
      rfl
    · exact lookupAssoc_append_of_some ho

theorem lookupAssoc_dictAppendList_self {g : Str} {l : List Str} :
    ∀ {d : RulesDict}, lookupAssoc (dictAppendList d g l) g
      = (lookupAssoc d g).map (fun x => x ++ l) := by
  induction l with
  | nil =>
    intro d
    show lookupAssoc d g = (lookupAssoc d g).map (fun x => x ++ [])
    rcases ho : lookupAssoc d g with _ | x
    · rfl
    · simp
  | cons r rs ih =>
    intro d
    rw [dictAppendList, List.foldl_cons]
    have h2 := ih (d := dictAppend d g r)
    rw [dictAppendList] at h2
    rw [h2, lookupAssoc_dictAppend_self]
    rcases ho : lookupAssoc d g with _ | x
    · rfl
    · simp

theorem lookupAssoc_dictAppendList_ne {g k : Str} {l : List Str} (h : k ≠ g) :
    ∀ {d : RulesDict}, lookupAssoc (dictAppendList d g l) k = lookupAssoc d k := by
  induction l with
  | nil => intro d; rfl
  | cons r rs ih =>
    intro d
    rw [dictAppendList, List.foldl_cons]
    have := ih (d := dictAppend d g r)
    rw [dictAppendList] at this
    rw [this, lookupAssoc_dictAppend_ne h]

/-- The loop body of `process_ruleset` in terms of `truthyConv`. -/
theorem processLine_eq_truthy (t : Target) (mode : Mode) (g : Str)
    (d : RulesDict) (line : Str) :
    processLine t mode g d line
      = match truthyConv t mode g line with
        | some c => dictAppend d g c
        | none => d := by
  rw [processLine, truthyConv]
  rcases hcv : t.convertRule mode line g with _ | conv
  · rfl
  · by_cases hce : conv.isEmpty
    · simp [hce]
    · simp [hce]

/-- The per-line loop of `process_ruleset` appends exactly the truthy
conversions, in line order. -/
theorem foldl_processLine_eq (t : Target) (mode : Mode) (g : Str)
    (lines : List Str) :
    ∀ d : RulesDict, lines.foldl (processLine t mode g) d
      = dictAppendList d g (lines.filterMap (truthyConv t mode g)) := by
  induction lines with
  | nil => intro d; rfl
  | cons line ls ih =>
    intro d
    rw [List.foldl_cons, List.filterMap_cons, processLine_eq_truthy]
    rcases htc : truthyConv t mode g line with _ | conv
    · exact ih d
    · rw [dictAppendList, List.foldl_cons]
      exact ih (dictAppend d g conv)

/-- `process_ruleset` is exactly: ensure the key, then append that
rule-set's contribution to the group's list. -/
theorem process_ruleset_eq (t : Target) (mode : Mode) (fetch : Str → Option Str)
    (d : RulesDict) (g rd : Str) :
    process_ruleset t mode fetch d g rd
      = dictAppendList (ensureKey d g) g (rulesetContribution t mode fetch g rd) := by
  rw [process_ruleset, rulesetContribution]
  by_cases hb : startsWithStr (chars "[") rd = true
  · rw [if_pos hb, if_pos hb]
    by_cases hf : rd.drop 2 = chars "FINAL"
    · rw [if_pos hf, if_pos hf]; rfl
    · rw [if_neg hf, if_neg hf]
      by_cases hg : startsWithStr (chars "GEOIP,") (rd.drop 2) = true
      · rw [if_pos hg, if_pos hg]; rfl
      · rw [if_neg hg, if_neg hg]; rfl
  · rw [if_neg hb, if_neg hb]
    rcases hc : fetch rd with _ | content
    · rfl
    · show (if content.isEmpty then ensureKey d g
          else List.foldl (processLine t mode g) (ensureKey d g) (pySplitlines content))
        = dictAppendList (ensureKey d g) g
            (if content.isEmpty then []
             else List.filterMap (truthyConv t mode g) (pySplitlines content))
      by_cases he : content.isEmpty
      · rw [if_pos he, if_pos he]; rfl
      · rw [if_neg he, if_neg he]
        exact foldl_processLine_eq t mode g (pySplitlines content) (ensureKey d g)

/-! ### Lemmas about `allRules` and processing order -/

theorem allRules_ensureKey {d : RulesDict} {g : Str} :
    allRules (ensureKey d g) = allRules d := by
  rw [ensureKey]
  by_cases hc : dictContains d g = true
  · rw [if_pos hc]
  · rw [if_neg hc]
    simp [allRules]

theorem dictContains_dictAppend {d : RulesDict} {g k : Str} {r : Str} :
    dictContains (dictAppend d g r) k = dictContains d k := by
  induction d with
  | nil => rfl
  | cons p rest ih =>
    by_cases hp : p.1 = g
    · rw [dictAppend, if_pos hp, dictContains, dictContains]
      simp
    · rw [dictAppend, if_neg hp, dictContains, dictContains]
      simp only [List.any_cons]
      rw [dictContains] at ih
      rw [ih, dictContains]

theorem dictContains_ensureKey_self {d : RulesDict} {g : Str} :
    dictContains (ensureKey d g) g = true := by
  rw [ensureKey]
  by_cases hc : dictContains d g = true
  · rw [if_pos hc]
    exact hc
  · rw [if_neg hc]
    rw [dictContains]
    simp

theorem allRules_dictAppend_perm {d : RulesDict} {g : Str} {r : Str}
    (h : dictContains d g = true) :
    (allRules (dictAppend d g r)).Perm (allRules d ++ [r]) := by
  induction d with
  | nil => exact absurd h (by rw [dictContains]; simp)
  | cons p rest ih =>
    by_cases hp : p.1 = g
    · rw [dictAppend, if_pos hp]
      show ((p.2 ++ [r]) ++ allRules rest).Perm ((p.2 ++ allRules rest) ++ [r])
      rw [List.append_assoc, List.append_assoc]
      exact (List.perm_append_comm).append_left p.2
    · rw [dictAppend, if_neg hp]
      have hr : dictContains rest g = true := by
        rw [dictContains] at h
        simp only [List.any_cons, Bool.or_eq_true, decide_eq_true_eq] at h
        rcases h with h | h
        · exact absurd h hp
        · rw [dictContains]; exact h
      show (p.2 ++ allRules (dictAppend rest g r)).Perm ((p.2 ++ allRules rest) ++ [r])
      rw [List.append_assoc]
      exact (ih hr).append_left p.2

theorem allRules_dictAppendList_perm {g : Str} {l : List Str} :
    ∀ {d : RulesDict}, dictContains d g = true →
      (allRules (dictAppendList d g l)).Perm (allRules d ++ l) := by
  induction l with
  | nil =>
    intro d _
    show (allRules d).Perm (allRules d ++ [])
    rw [List.append_nil]
  | cons r rs ih =>
    intro d h
    rw [dictAppendList, List.foldl_cons]
    have h2 : dictContains (dictAppend d g r) g = true := by
      rw [dictContains_dictAppend]; exact h
    have step := ih h2
    rw [dictAppendList] at step
    refine step.trans ?_
    have h3 := (allRules_dictAppend_perm (r := r) h).append_right rs
    rw [List.append_assoc, List.singleton_append] at h3
    exact h3

theorem allRules_process_perm (t : Target) (mode : Mode)
    (fetch : Str → Option Str) (d : RulesDict) (g rd : Str) :
    (allRules (process_ruleset t mode fetch d g rd)).Perm
      (allRules d ++ rulesetContribution t mode fetch g rd) := by
  rw [process_ruleset_eq]
  have h := allRules_dictAppendList_perm
    (l := rulesetContribution t mode fetch g rd)
    (d := ensureKey d g) dictContains_ensureKey_self
  rw [allRules_ensureKey] at h
  exact h

theorem allRules_fold_perm (t : Target) (mode : Mode)
    (fetch : Str → Option Str) (tasks : List (Str × Str)) :
    ∀ d : RulesDict,
      (allRules (tasks.foldl
        (fun d p => process_ruleset t mode fetch d p.1 p.2) d)).Perm
      (allRules d ++
        (tasks.map (fun p => rulesetContribution t mode fetch p.1 p.2)).flatten) := by
  induction tasks with
  | nil =>
    intro d
    rw [List.foldl_nil, List.map_nil, List.flatten_nil, List.append_nil]
  | cons p ps ih =>
    intro d
    rw [List.foldl_cons, List.map_cons, List.flatten_cons]
    refine (ih (process_ruleset t mode fetch d p.1 p.2)).trans ?_
    have h := (allRules_process_perm t mode fetch d p.1 p.2).append_right
      ((ps.map (fun p => rulesetContribution t mode fetch p.1 p.2)).flatten)
    rw [List.append_assoc] at h
    exact h

theorem lookupAssoc_mem {β : Type} {d : List (Str × β)} {k : Str} {v : β}
    (h : lookupAssoc d k = some v) : (k, v) ∈ d := by
  induction d with
  | nil => exact Option.noConfusion h
  | cons p rest ih =>
    by_cases hp : p.1 = k
    · rw [lookupAssoc, if_pos hp] at h
      injection h with h
      subst h
      subst hp
      exact List.mem_cons_self _ _
    · rw [lookupAssoc, if_neg hp] at h
      exact List.mem_cons_of_mem _ (ih h)

theorem mem_allRules_of_lookup {d : RulesDict} {k : Str} {rules : List Str}
    {r : Str} (h : lookupAssoc d k = some rules) (hr : r ∈ rules) :
    r ∈ allRules d := by
  rw [allRules, List.mem_flatten]
  exact ⟨rules, List.mem_map.mpr ⟨(k, rules), lookupAssoc_mem h, rfl⟩, hr⟩

/-! ### Lemmas about output generation -/

theorem outputLoop_snd (t : Target) (mode : Mode) (d : RulesDict) :
    (outputLoop t mode d).2 = allRules d := by
  induction d with
  | nil => rfl
  | cons p rest ih =>
    obtain ⟨g, rules⟩ := p
    have hall : allRules ((g, rules) :: rest) = rules ++ allRules rest := rfl
    rw [outputLoop, hall]
    by_cases he : rules.isEmpty
    · rw [if_pos he, List.isEmpty_iff.mp he, List.nil_append]
      exact ih
    · rw [if_neg he]
      rw [ih]

theorem outputLoop_fst (t : Target) (mode : Mode) (d : RulesDict) :
    (outputLoop t mode d).1 = d.filterMap (fun p =>
      if p.2.isEmpty then none
      else some (OutFile.group p.1 (groupFileContent t mode p.1 p.2))) := by
  induction d with
  | nil => rfl
  | cons p rest ih =>
    obtain ⟨g, rules⟩ := p
    by_cases he : rules.isEmpty
    · have he2 : rules = [] := List.isEmpty_iff.mp he
      rw [outputLoop, if_pos he, ih]
      simp [List.filterMap_cons, he2]
    · have he2 : rules ≠ [] := fun h => he (by simp [h])
      rw [outputLoop, if_neg he]
      rw [ih]
      simp [List.filterMap_cons, he2]

/-! ### Lemmas about the MD5 digest -/

theorem md5Digest_length (msg : List Nat) : (md5Digest msg).length = 16 := by
  rw [md5Digest]
  simp [wordLE]

theorem wordLE_lt_256 {w b : Nat} (h : b ∈ wordLE w) : b < 256 := by
  rw [wordLE] at h
  simp only [List.mem_cons, List.not_mem_nil, or_false] at h
  rcases h with h | h | h | h <;> omega

theorem md5Digest_lt_256 (msg : List Nat) :
    ∀ b ∈ md5Digest msg, b < 256 := by
  rw [md5Digest]
  intro b hb
  simp only [List.mem_append] at hb
  rcases hb with ((h | h) | h) | h <;> exact wordLE_lt_256 h

theorem hexDigitCh_mem (n : Nat) (h : n < 16) :
    hexDigitCh n ∈ chars "0123456789abcdef" := by
  revert h
  revert n
  decide

theorem byteHex_mem {b : Nat} (hb : b < 256) :
    ∀ c ∈ byteHex b, c ∈ chars "0123456789abcdef" := by
  intro c hc
  rw [byteHex] at hc
  rcases List.mem_cons.mp hc with h | h
  · subst h
    exact hexDigitCh_mem _ (by omega)
  · rcases List.mem_cons.mp h with h2 | h2
    · subst h2
      exact hexDigitCh_mem _ (by omega)
    · simp at h2

theorem md5Hex_length (msg : List Nat) : (md5Hex msg).length = 32 := by
  rw [md5Hex, List.length_flatten, List.map_map]
  have h : ∀ l : List Nat, (l.map (List.length ∘ byteHex)).sum = 2 * l.length := by
    intro l
    induction l with
    | nil => rfl
    | cons b bs ih =>
      simp only [List.map_cons, List.sum_cons, ih]
      show (byteHex b).length + 2 * bs.length = 2 * (bs.length + 1)
      rw [byteHex]
      simp
      omega
  rw [h, md5Digest_length]

theorem md5Hex_mem_hex (msg : List Nat) :
    ∀ c ∈ md5Hex msg, c ∈ chars "0123456789abcdef" := by
  intro c hc
  rw [md5Hex] at hc
  rcases List.mem_flatten.mp hc with ⟨l, hl, hcl⟩
  rcases List.mem_map.mp hl with ⟨b, hb, rfl⟩
  exact byteHex_mem (md5Digest_lt_256 msg b hb) c hcl

/-- The embedded MD5 agrees with the standard `"abc"` test vector. -/
theorem md5Hex_abc :
    md5Hex (utf8Encode (chars "abc")) = chars "900150983cd24fb0d6963f7d28e17f72" := by
  decide

/-- The embedded MD5 agrees with the empty-message test vector. -/
theorem md5Hex_empty :
    md5Hex [] = chars "d41d8cd98f00b204e9800998ecf8427e" := by
  decide

/-! ### The claims -/

/-- C6: `get_cache_path` returns `cache_dir/<h>.txt` where `<h>` is the
hexadecimal MD5 digest of the UTF-8 encoding of the URL (32 lowercase hex
characters); the cache key is a function of the URL alone, so equal URLs
map to the same cache file. -/
theorem claim_C6 (cache_dir url : Str) :
    get_cache_path cache_dir url
      = cache_dir ++ chars "/" ++ md5Hex (utf8Encode url) ++ chars ".txt"
    ∧ (md5Hex (utf8Encode url)).length = 32
    ∧ (∀ c ∈ md5Hex (utf8Encode url), c ∈ chars "0123456789abcdef")
    ∧ (∀ url2, url2 = url →
        get_cache_path cache_dir url2 = get_cache_path cache_dir url) :=
  ⟨rfl, md5Hex_length _, md5Hex_mem_hex _, fun _ h => by rw [h]⟩

theorem claim_C6_witness :
    get_cache_path (chars "cache") (chars "abc")
      = chars "cache" ++ chars "/" ++ md5Hex (utf8Encode (chars "abc")) ++ chars ".txt"
    ∧ '9' ∈ chars "0123456789abcdef"
    ∧ get_cache_path (chars "cache") (chars "abc")
      = get_cache_path (chars "cache") (chars "abc") := by
  refine ⟨(claim_C6 (chars "cache") (chars "abc")).1, ?_,
    (claim_C6 (chars "cache") (chars "abc")).2.2.2 (chars "abc") rfl⟩
  exact (claim_C6 (chars "cache") (chars "abc")).2.2.1 '9' (by decide)

/-- C4: when the single HTTP fetch raises `URLError`, `download_rule_file`
returns the cached content when the cache file exists and is readable, and
`None` otherwise; no run of `download_rule_file` makes more than one fetch
attempt; and when the download of a rule-set returns `None`,
`process_ruleset` contributes no rules (the group's list is only created
empty if absent). -/
theorem claim_C4 (env : DownloadEnv) :
    (env.fetch = FetchResult.urlError →
      (download_rule_file env true).1
        = (if env.cacheExists then env.cacheRead else none))
    ∧ (∀ uc : Bool, (download_rule_file env uc).2 ≤ 1)
    ∧ (∀ (t : Target) (mode : Mode) (fetch : Str → Option Str)
        (d : RulesDict) (g rd : Str),
        startsWithStr (chars "[") rd = false → fetch rd = none →
        process_ruleset t mode fetch d g rd = ensureKey d g) := by
  obtain ⟨ce, cr, f⟩ := env
  refine ⟨?_, ?_, ?_⟩
  · intro h
    subst h
    cases ce <;> cases cr <;>
      simp [download_rule_file, downloadFetchStep]
  · intro uc
    cases uc <;> cases ce <;> cases cr <;> cases f <;>
      simp [download_rule_file, downloadFetchStep]
  · intro t mode fetch d g rd hb hf
    rw [process_ruleset, hb]
    simp only [Bool.false_eq_true, if_false]
    rw [hf]

theorem claim_C4_witness :
    ((download_rule_file ⟨true, some (chars "c"), FetchResult.urlError⟩ true).1
      = (if true then some (chars "c") else none))
    ∧ (download_rule_file ⟨true, some (chars "c"), FetchResult.urlError⟩ true).2 ≤ 1
    ∧ process_ruleset qxTarget Mode.list (fun _ => none) [] (chars "A") (chars "u")
      = ensureKey [] (chars "A") := by
  refine ⟨(claim_C4 ⟨true, some (chars "c"), FetchResult.urlError⟩).1 rfl,
    (claim_C4 ⟨true, some (chars "c"), FetchResult.urlError⟩).2.1 true, ?_⟩
  exact (claim_C4 ⟨true, some (chars "c"), FetchResult.urlError⟩).2.2 qxTarget
    Mode.list (fun _ => none) [] (chars "A") (chars "u") (by decide) rfl

/-- C8: `process_ruleset` records every converted rule under exactly the
policy-group name of the rule-set it came from: it appends its contribution
to its own group's list (creating the entry empty if absent) and leaves
every other group's entry untouched; hence two rule-sets sharing a
policy-group name append into one shared list and no operation moves or
removes rules. -/
theorem claim_C8 (t : Target) (mode : Mode) (fetch : Str → Option Str)
    (d : RulesDict) (g rd : Str) :
    lookupAssoc (process_ruleset t mode fetch d g rd) g
      = some (((lookupAssoc d g).getD [])
          ++ rulesetContribution t mode fetch g rd)
    ∧ ∀ k, k ≠ g →
        lookupAssoc (process_ruleset t mode fetch d g rd) k = lookupAssoc d k := by
  constructor
  · rw [process_ruleset_eq, lookupAssoc_dictAppendList_self,
      lookupAssoc_ensureKey_self]
    rfl
  · intro k hk
    rw [process_ruleset_eq, lookupAssoc_dictAppendList_ne hk,
      lookupAssoc_ensureKey_ne hk]

theorem claim_C8_witness :
    lookupAssoc (process_ruleset qxTarget Mode.list (fun _ => none) []
        (chars "A") (chars "u")) (chars "A")
      = some (((lookupAssoc ([] : RulesDict) (chars "A")).getD [])
          ++ rulesetContribution qxTarget Mode.list (fun _ => none)
              (chars "A") (chars "u"))
    ∧ lookupAssoc (process_ruleset qxTarget Mode.list (fun _ => none) []
        (chars "A") (chars "u")) (chars "B")
      = lookupAssoc ([] : RulesDict) (chars "B") := by
  refine ⟨(claim_C8 qxTarget Mode.list (fun _ => none) []
    (chars "A") (chars "u")).1, ?_⟩
  exact (claim_C8 qxTarget Mode.list (fun _ => none) []
    (chars "A") (chars "u")).2 (chars "B") (by decide)

theorem allRules_nil : allRules [] = [] := rfl

/-- C1 as stated is false: on a fixed input (directive file `cexIni`, rule
sources resolved by `cexFetch`), two runs of the pipeline that process the
two rule-sets in the two orders a thread pool can realise produce
different bytes in the combined ALL file. -/
theorem claim_C1_counterexample :
    (List.Perm [1, 0] [0, 1])
    ∧ allContents (runPipeline qxTarget Mode.list cexFetch cexIni [0, 1])
      ≠ allContents (runPipeline qxTarget Mode.list cexFetch cexIni [1, 0]) := by
  constructor
  · decide
  · decide

/-- C1 (amended): for every fixed input, two runs that process the
rule-sets in the same order produce byte-identical output files, and any
two processing orders that are permutations of each other yield the same
multiset of converted rules (the bytes of the ALL file can differ only in
rule order). -/
theorem claim_C1_amended (t : Target) (mode : Mode) (fetch : Str → Option Str)
    (ini : Str) (o1 o2 : List Nat) (h : o1.Perm o2) :
    (allRules (pipelineDict t mode fetch ini o1)).Perm
      (allRules (pipelineDict t mode fetch ini o2))
    ∧ (o1 = o2 →
        runPipeline t mode fetch ini o1 = runPipeline t mode fetch ini o2) := by
  constructor
  · have e1 := allRules_fold_perm t mode fetch
      (o1.filterMap (fun i => (parse_acl4ssr_ini ini)[i]?)) []
    have e2 := allRules_fold_perm t mode fetch
      (o2.filterMap (fun i => (parse_acl4ssr_ini ini)[i]?)) []
    rw [allRules_nil, List.nil_append] at e1 e2
    have mid := List.Perm.flatten (List.Perm.map
      (fun p => rulesetContribution t mode fetch p.1 p.2)
      (List.Perm.filterMap (fun i => (parse_acl4ssr_ini ini)[i]?) h))
    exact e1.trans (mid.trans e2.symm)
  · intro he
    rw [he]

theorem claim_C1_witness :
    (allRules (pipelineDict qxTarget Mode.list cexFetch cexIni [0, 1])).Perm
      (allRules (pipelineDict qxTarget Mode.list cexFetch cexIni [1, 0]))
    ∧ (([0, 1] : List Nat) = [1, 0] →
        runPipeline qxTarget Mode.list cexFetch cexIni [0, 1]
          = runPipeline qxTarget Mode.list cexFetch cexIni [1, 0]) :=
  claim_C1_amended qxTarget Mode.list cexFetch cexIni [0, 1] [1, 0] (by decide)

theorem mem_generate_iff {t : Target} {mode : Mode} {d : RulesDict}
    {f : OutFile} :
    f ∈ generate_output_files t mode d ↔
      f ∈ (outputLoop t mode d).1
      ∨ ((outputLoop t mode d).2 ≠ []
          ∧ f = OutFile.all (allFileContent t mode (outputLoop t mode d).2))
      ∨ (mode = Mode.full
          ∧ f = OutFile.fullconf t.fullConfigName (t.fullConfig d)) := by
  by_cases hie : (outputLoop t mode d).2.isEmpty
  · have h2 : (outputLoop t mode d).2 = [] := List.isEmpty_iff.mp hie
    by_cases hm : mode = Mode.full
    · simp [generate_output_files, hie, hm, h2]
    · simp [generate_output_files, hie, hm, h2]
  · have h2 : (outputLoop t mode d).2 ≠ [] := fun h => hie (by simp [h])
    by_cases hm : mode = Mode.full
    · simp [generate_output_files, hie, hm, h2]
    · simp [generate_output_files, hie, hm, h2]

/-- C7: `generate_output_files` writes a per-policy-group file exactly for
the groups with a non-empty rule list, with that group's rules after the
header; it writes the combined ALL file exactly when at least one rule
exists, containing the concatenation of all groups' rule lists in group
order; and the ALL rule count is the sum of the per-group counts. -/
theorem claim_C7 (t : Target) (mode : Mode) (d : RulesDict) :
    (∀ g rules, (g, rules) ∈ d → rules ≠ [] →
      OutFile.group g (groupFileContent t mode g rules)
        ∈ generate_output_files t mode d)
    ∧ (∀ g c, OutFile.group g c ∈ generate_output_files t mode d →
        ∃ rules, (g, rules) ∈ d ∧ rules ≠ []
          ∧ c = groupFileContent t mode g rules)
    ∧ ((∃ c, OutFile.all c ∈ generate_output_files t mode d)
        ↔ allRules d ≠ [])
    ∧ (∀ c, OutFile.all c ∈ generate_output_files t mode d →
        c = allFileContent t mode (allRules d))
    ∧ (allRules d).length = (d.map (fun p => p.2.length)).sum := by
  refine ⟨?_, ?_, ?_, ?_, ?_⟩
  · intro g rules hmem hne
    refine mem_generate_iff.mpr (Or.inl ?_)
    rw [outputLoop_fst]
    refine List.mem_filterMap.mpr ⟨(g, rules), hmem, ?_⟩
    simp [List.isEmpty_iff, hne]
  · intro g c hmem
    rcases mem_generate_iff.mp hmem with h | ⟨_, h⟩ | ⟨_, h⟩
    · rw [outputLoop_fst] at h
      rcases List.mem_filterMap.mp h with ⟨⟨g2, rules⟩, hmem2, heq⟩
      by_cases he : rules.isEmpty
      · simp [List.isEmpty_iff.mp he] at heq
      · have hne : rules ≠ [] := fun hh => he (by simp [hh])
        simp only [List.isEmpty_iff, hne, if_false, Option.some.injEq] at heq
        injection heq.symm with e1 e2
        subst e1
        exact ⟨rules, hmem2, hne, e2⟩
    · exact absurd h (by simp)
    · exact absurd h (by simp)
  · constructor
    · rintro ⟨c, hc⟩
      rcases mem_generate_iff.mp hc with h | ⟨hne, _⟩ | ⟨_, h⟩
      · rw [outputLoop_fst] at h
        rcases List.mem_filterMap.mp h with ⟨p, _, heq⟩
        by_cases he : p.2.isEmpty
        · simp [List.isEmpty_iff.mp he] at heq
        · have hne : p.2 ≠ [] := fun hh => he (by simp [hh])
          simp [List.isEmpty_iff, hne] at heq
      · rw [outputLoop_snd] at hne
        exact hne
      · exact absurd h (by simp)
    · intro hne
      refine ⟨allFileContent t mode (outputLoop t mode d).2,
        mem_generate_iff.mpr (Or.inr (Or.inl ⟨?_, rfl⟩))⟩
      rw [outputLoop_snd]
      exact hne
  · intro c hc
    rcases mem_generate_iff.mp hc with h | ⟨_, h⟩ | ⟨_, h⟩
    · rw [outputLoop_fst] at h
      rcases List.mem_filterMap.mp h with ⟨p, _, heq⟩
      by_cases he : p.2.isEmpty
      · simp [List.isEmpty_iff.mp he] at heq
      · have hne : p.2 ≠ [] := fun hh => he (by simp [hh])
        simp [List.isEmpty_iff, hne] at heq
    · injection h with e
      rw [e, outputLoop_snd]
    · exact absurd h (by simp)
  · rw [allRules, List.length_flatten, List.map_map]
    rfl

theorem claim_C7_witness :
    OutFile.group (chars "A")
        (groupFileContent qxTarget Mode.list (chars "A") [chars "r"])
      ∈ generate_output_files qxTarget Mode.list
          [(chars "A", [chars "r"]), (chars "B", [])]
    ∧ (allRules [(chars "A", [chars "r"]), (chars "B", [])]).length
      = ([(chars "A", [chars "r"]), (chars "B", [])].map
          (fun p => p.2.length)).sum := by
  refine ⟨(claim_C7 qxTarget Mode.list
      [(chars "A", [chars "r"]), (chars "B", [])]).1
      (chars "A") [chars "r"] (by decide) (by decide),
    (claim_C7 qxTarget Mode.list
      [(chars "A", [chars "r"]), (chars "B", [])]).2.2.2.2⟩

theorem takeWhile_no_newline {t : Str} (ht : '\n' ∉ t) :
    t.takeWhile (fun c => c ≠ '\n') = t :=
  List.takeWhile_eq_self_iff.mpr (fun c hc => by
    simp only [ne_eq, decide_eq_true_eq]
    exact fun he => ht (he ▸ hc))

theorem regexMatchRuleset_eq_some {l g0 s0 : Str} (hl : '\n' ∉ l) :
    regexMatchRuleset l = some (g0, s0) ↔
      l = chars "ruleset=" ++ g0 ++ ',' :: s0 ∧ g0 ≠ [] ∧ ',' ∉ g0 ∧ s0 ≠ [] := by
  constructor
  · intro h
    rw [regexMatchRuleset] at h
    cases hd : dropLit (chars "ruleset=") l with
    | none =>
      rw [hd] at h
      exact Option.noConfusion h
    | some rest =>
      rw [hd] at h
      change regexMatchGroups rest = some (g0, s0) at h
      have hrest := dropLit_eq_some.mp hd
      rw [regexMatchGroups.eq_def] at h
      cases hs : splitFirst ',' rest with
      | none =>
        rw [hs] at h
        exact Option.noConfusion h
      | some gt =>
        obtain ⟨g, t⟩ := gt
        rw [hs] at h
        change (if g.isEmpty then none
          else if (t.takeWhile (fun c => c ≠ '\n')).isEmpty then none
          else some (g, t.takeWhile (fun c => c ≠ '\n'))) = some (g0, s0) at h
        have hsplit := splitFirst_eq_some.mp hs
        by_cases hg : g.isEmpty
        · rw [if_pos hg] at h
          exact Option.noConfusion h
        · rw [if_neg hg] at h
          have ht : '\n' ∉ t := by
            intro hm
            apply hl
            rw [hrest, hsplit.1]
            exact List.mem_append.mpr (Or.inr (List.mem_append.mpr
              (Or.inr (List.mem_cons_of_mem _ hm))))
          rw [takeWhile_no_newline ht] at h
          by_cases hte : t.isEmpty
          · rw [if_pos hte] at h
            exact Option.noConfusion h
          · rw [if_neg hte] at h
            injection h with h
            injection h with e1 e2
            subst e1
            subst e2
            refine ⟨?_, fun he => hg (by simp [he]), hsplit.2,
              fun he => hte (by simp [he])⟩
            rw [hrest, hsplit.1, List.append_assoc]
  · rintro ⟨hdec, hg0, hnc, hs0⟩
    have hd : dropLit (chars "ruleset=") l = some (g0 ++ ',' :: s0) :=
      dropLit_eq_some.mpr hdec
    have hs : splitFirst ',' (g0 ++ ',' :: s0) = some (g0, s0) :=
      splitFirst_eq_some.mpr ⟨rfl, hnc⟩
    rw [regexMatchRuleset]
    simp only [hd]
    rw [regexMatchGroups.eq_def]
    simp only [hs]
    rw [if_neg (fun h => hg0 (List.isEmpty_iff.mp h))]
    have hns : '\n' ∉ s0 := fun hm => hl (by rw [hdec]; simp [hm])
    rw [takeWhile_no_newline hns,
      if_neg (fun h => hs0 (List.isEmpty_iff.mp h))]

theorem parseRulesetLine_eq_some {line g s : Str} (hl : '\n' ∉ line) :
    parseRulesetLine line = some (g, s) ↔
      ∃ g0 s0, pyStrip line = chars "ruleset=" ++ g0 ++ ',' :: s0
        ∧ g0 ≠ [] ∧ ',' ∉ g0 ∧ s0 ≠ []
        ∧ g = pyStrip g0 ∧ s = pyStrip s0 := by
  have hls : '\n' ∉ pyStrip line := fun hm => hl (mem_of_mem_pyStrip hm)
  rw [parseRulesetLine]
  by_cases hsw : startsWithStr (chars "ruleset=") (pyStrip line) = true
  · rw [if_pos hsw]
    cases hr : regexMatchRuleset (pyStrip line) with
    | none =>
      refine iff_of_false (by simp) ?_
      rintro ⟨g0, s0, hdec, hg0, hnc, hs0, _, _⟩
      have h2 := (@regexMatchRuleset_eq_some (pyStrip line) g0 s0 hls).mpr
        ⟨hdec, hg0, hnc, hs0⟩
      rw [hr] at h2
      exact Option.noConfusion h2
    | some gs =>
      obtain ⟨g0, s0⟩ := gs
      have hd := (regexMatchRuleset_eq_some hls).mp hr
      show some (pyStrip g0, pyStrip s0) = some (g, s) ↔ _
      simp only [Option.some.injEq, Prod.mk.injEq]
      constructor
      · rintro ⟨rfl, rfl⟩
        exact ⟨g0, s0, hd.1, hd.2.1, hd.2.2.1, hd.2.2.2, rfl, rfl⟩
      · rintro ⟨g1, s1, hdec, hg1, hnc1, hs1, rfl, rfl⟩
        have h2 := (@regexMatchRuleset_eq_some (pyStrip line) g1 s1 hls).mpr
          ⟨hdec, hg1, hnc1, hs1⟩
        rw [hr] at h2
        injection h2 with h2
        injection h2 with e1 e2
        rw [e1, e2]
        exact ⟨rfl, rfl⟩
  · rw [if_neg hsw]
    refine iff_of_false (by simp) ?_
    rintro ⟨g0, s0, hdec, _, _, _, _, _⟩
    exact hsw (by rw [hdec]; exact startsWithStr_append)

/-- C2: a line of the directive file yields a (policy-group, rule-source)
pair iff its stripped form is `ruleset=<group>,<source>` with a non-empty
comma-free group and a non-empty source, the pair being both captures
stripped of surrounding whitespace; and `parse_acl4ssr_ini` appends the
pairs in the order their lines appear. -/
theorem claim_C2 :
    (∀ line g s, '\n' ∉ line →
      (parseRulesetLine line = some (g, s) ↔
        ∃ g0 s0, pyStrip line = chars "ruleset=" ++ g0 ++ ',' :: s0
          ∧ g0 ≠ [] ∧ ',' ∉ g0 ∧ s0 ≠ []
          ∧ g = pyStrip g0 ∧ s = pyStrip s0))
    ∧ ∀ content, parse_acl4ssr_ini content
        = (fileLines content).filterMap parseRulesetLine :=
  ⟨fun _ _ _ hl => parseRulesetLine_eq_some hl, fun _ => rfl⟩

theorem claim_C2_witness :
    parseRulesetLine (chars " ruleset=A, u ") = some (chars "A", chars "u") ↔
      ∃ g0 s0, pyStrip (chars " ruleset=A, u ")
          = chars "ruleset=" ++ g0 ++ ',' :: s0
        ∧ g0 ≠ [] ∧ ',' ∉ g0 ∧ s0 ≠ []
        ∧ chars "A" = pyStrip g0 ∧ chars "u" = pyStrip s0 :=
  claim_C2.1 (chars " ruleset=A, u ") (chars "A") (chars "u") (by decide)

theorem startsWithStr_head_ne {p s : Str} {a b : Char} {ps cs : Str}
    (hp : p = a :: ps) (hs : s = b :: cs) (h : a ≠ b) :
    startsWithStr p s = false := by
  subst hp
  subst hs
  rw [startsWithStr]
  simp [h]

theorem startsWithStr_append_cancel {p q s : Str} :
    startsWithStr (p ++ q) (p ++ s) = startsWithStr q s := by
  induction p with
  | nil => rfl
  | cons a ps ih =>
    rw [List.cons_append, List.cons_append, startsWithStr, ih]
    simp

theorem ipcidr6_not_prefix_of_ipcidr {tail : Str} :
    startsWithStr (chars "IP-CIDR6") (chars "IP-CIDR" ++ ',' :: tail) = false := by
  have h : chars "IP-CIDR6" = chars "IP-CIDR" ++ ['6'] := by decide
  rw [h, startsWithStr_append_cancel]
  exact startsWithStr_head_ne rfl rfl (by decide)

theorem srDispatch_no_ipcidr6 {mode : Mode} {g rt rv conv : Str}
    (h : srDispatch mode g rt rv = some conv) :
    startsWithStr (chars "IP-CIDR6") conv = false := by
  rw [srDispatch] at h
  generalize srPolicy mode g = pol at h
  split_ifs at h with h1 h2 h3 h4
  · rcases h1 with rfl | rfl | rfl <;>
      (injection h with h; subst h;
       exact startsWithStr_head_ne rfl rfl (by decide))
  · subst h2
    injection h with h
    subst h
    simp only [List.append_assoc, List.cons_append]
    exact ipcidr6_not_prefix_of_ipcidr
  · subst h3
    injection h with h
    subst h
    exact startsWithStr_head_ne rfl rfl (by decide)
  · subst h4
    injection h with h
    subst h
    exact startsWithStr_head_ne rfl rfl (by decide)

theorem convert_sr_no_ipcidr6 {mode : Mode} {line g conv : Str}
    (h : convert_clash_rule_to_shadowrocket mode line g = some conv) :
    startsWithStr (chars "IP-CIDR6") conv = false := by
  rw [convert_clash_rule_to_shadowrocket] at h
  by_cases h1 : (pyStrip line).isEmpty
  · rw [if_pos h1] at h
    exact Option.noConfusion h
  · rw [if_neg h1] at h
    by_cases h2 : startsWithStr (chars "#") (pyStrip line) = true
    · rw [if_pos h2] at h
      exact Option.noConfusion h
    · rw [if_neg h2] at h
      by_cases h3 : (splitOnChar ',' (pyStrip line)).length < 2
      · rw [if_pos h3] at h
        exact Option.noConfusion h
      · rw [if_neg h3] at h
        exact srDispatch_no_ipcidr6 h

theorem srContribution_no_ipcidr6 (mode : Mode) (fetch : Str → Option Str)
    (g rd : Str) :
    ∀ r ∈ rulesetContribution srTarget mode fetch g rd,
      startsWithStr (chars "IP-CIDR6") r = false := by
  intro r hr
  rw [rulesetContribution] at hr
  by_cases hb : startsWithStr (chars "[") rd = true
  · rw [if_pos hb] at hr
    by_cases hf : rd.drop 2 = chars "FINAL"
    · rw [if_pos hf] at hr
      rw [List.mem_singleton.mp hr]
      exact startsWithStr_head_ne rfl rfl (by decide)
    · rw [if_neg hf] at hr
      by_cases hg2 : startsWithStr (chars "GEOIP,") (rd.drop 2) = true
      · rw [if_pos hg2] at hr
        rw [List.mem_singleton.mp hr]
        exact startsWithStr_head_ne rfl rfl (by decide)
      · rw [if_neg hg2] at hr
        exact absurd hr (List.not_mem_nil r)
  · rw [if_neg hb] at hr
    rcases hc : fetch rd with _ | content
    · rw [hc] at hr
      exact absurd hr (List.not_mem_nil r)
    · rw [hc] at hr
      change r ∈ (if content.isEmpty then []
        else (pySplitlines content).filterMap (truthyConv srTarget mode g)) at hr
      by_cases he : content.isEmpty
      · rw [if_pos he] at hr
        exact absurd hr (List.not_mem_nil r)
      · rw [if_neg he] at hr
        rcases List.mem_filterMap.mp hr with ⟨line, _, htc⟩
        rw [truthyConv] at htc
        rcases hcv : srTarget.convertRule mode line g with _ | conv
        · rw [hcv] at htc
          exact Option.noConfusion htc
        · rw [hcv] at htc
          change (if conv.isEmpty then none else some conv) = some r at htc
          by_cases hce : conv.isEmpty
          · rw [if_pos hce] at htc
            exact Option.noConfusion htc
          · rw [if_neg hce] at htc
            injection htc with htc
            subst htc
            exact convert_sr_no_ipcidr6 hcv

theorem fold_sr_no_ipcidr6 (mode : Mode) (fetch : Str → Option Str)
    (tasks : List (Str × Str)) :
    ∀ r ∈ allRules (tasks.foldl
      (fun d p => process_ruleset srTarget mode fetch d p.1 p.2) []),
      startsWithStr (chars "IP-CIDR6") r = false := by
  intro r hr
  have hperm := allRules_fold_perm srTarget mode fetch tasks []
  rw [allRules_nil, List.nil_append] at hperm
  have hr2 := hperm.subset hr
  rcases List.mem_flatten.mp hr2 with ⟨l, hl, hrl⟩
  rcases List.mem_map.mp hl with ⟨p, _, rfl⟩
  exact srContribution_no_ipcidr6 mode fetch p.1 p.2 r hrl

theorem srDispatch_ipcidr6 (mode : Mode) (g rv : Str) :
    srDispatch mode g (chars "IP-CIDR6") rv = none := by
  rw [srDispatch]
  rw [if_neg (by decide), if_neg (by decide), if_neg (by decide),
    if_neg (by decide)]

/-- C10: the Shadowrocket translator rejects every rule whose first field
is `IP-CIDR6` (the type is absent from its rewrite table), so no converted
Shadowrocket rule ever starts with `IP-CIDR6`, while the Quantumult X
translator accepts the same line. -/
theorem claim_C10 :
    (∀ (mode : Mode) (rule g : Str),
      ¬ (splitOnChar ',' (pyStrip rule)).length < 2 →
      pyStrip ((splitOnChar ',' (pyStrip rule)).getD 0 []) = chars "IP-CIDR6" →
      convert_clash_rule_to_shadowrocket mode rule g = none)
    ∧ lookupAssoc RULE_TYPE_MAP_sr (chars "IP-CIDR6") = none
    ∧ (∀ (mode : Mode) (fetch : Str → Option Str) (tasks : List (Str × Str))
        (grp : Str) (rules : List Str) (r : Str),
        lookupAssoc (tasks.foldl
          (fun d p => process_ruleset srTarget mode fetch d p.1 p.2) []) grp
          = some rules → r ∈ rules →
        startsWithStr (chars "IP-CIDR6") r = false)
    ∧ convert_clash_rule_to_quantumult Mode.list
        (chars "IP-CIDR6,2001:db8::/32") (chars "G")
      = some (chars "IP-CIDR6,2001:db8::/32,proxy,no-resolve") := by
  refine ⟨?_, by decide, ?_, by decide⟩
  · intro mode rule g hlen hfirst
    rw [convert_clash_rule_to_shadowrocket]
    by_cases h1 : (pyStrip rule).isEmpty
    · rw [if_pos h1]
    · rw [if_neg h1]
      by_cases h2 : startsWithStr (chars "#") (pyStrip rule) = true
      · rw [if_pos h2]
      · rw [if_neg h2, if_neg hlen, hfirst]
        exact srDispatch_ipcidr6 mode g _
  · intro mode fetch tasks grp rules r hlook hmem
    exact fold_sr_no_ipcidr6 mode fetch tasks r
      (mem_allRules_of_lookup hlook hmem)

theorem claim_C10_witness :
    convert_clash_rule_to_shadowrocket Mode.list
      (chars "IP-CIDR6,2001:db8::/32") (chars "G") = none
    ∧ startsWithStr (chars "IP-CIDR6") (chars "DOMAIN,a.com,PROXY") = false := by
  constructor
  · exact claim_C10.1 Mode.list (chars "IP-CIDR6,2001:db8::/32") (chars "G")
      (by decide) (by decide)
  · exact claim_C10.2.2.1 Mode.list
      (fun _ => some (chars "IP-CIDR6,2001:db8::/32\nDOMAIN,a.com"))
      [(chars "G", chars "u")] (chars "G") [chars "DOMAIN,a.com,PROXY"]
      (chars "DOMAIN,a.com,PROXY") (by decide) (by decide)

theorem srDispatch_none_of_table_miss {mode : Mode} {g rt rv : Str}
    (h : lookupAssoc RULE_TYPE_MAP_sr rt = none) :
    srDispatch mode g rt rv = none := by
  rw [srDispatch]
  split_ifs with h1 h2 h3 h4
  · rcases h1 with rfl | rfl | rfl <;> exact absurd h (by decide)
  · subst h2
    exact absurd h (by decide)
  · subst h3
    exact absurd h (by decide)
  · subst h4
    exact absurd h (by decide)
  · rfl

/-- C5 as stated is false: the Shadowrocket translator accepts the line
`"DOMAIN,"`, which splits into fewer than two non-empty comma-separated
fields, instead of returning `None` (its length check counts empty
fields). -/
theorem claim_C5_counterexample :
    ((splitOnChar ',' (chars "DOMAIN,")).filter
      (fun p => ¬ p.isEmpty)).length < 2
    ∧ convert_clash_rule_to_shadowrocket Mode.list (chars "DOMAIN,") (chars "G")
      = some (chars "DOMAIN,,PROXY") := by
  constructor
  · decide
  · decide

/-- C5 (amended): a line that is empty after stripping or starts with `#`
is rejected by both translators; the Quantumult X translator also rejects
lines with fewer than two non-empty stripped fields or a first field
absent from its rewrite table, while the Shadowrocket translator rejects
lines with fewer than two comma-separated fields counting empty ones, or
whose stripped first field is absent from its rewrite table; and a line
whose conversion is `None` contributes no rule to any policy group's
list. -/
theorem claim_C5_amended :
    (∀ (mode : Mode) (rule g : Str),
      (pyStrip rule = [] →
        convert_clash_rule_to_quantumult mode rule g = none
        ∧ convert_clash_rule_to_shadowrocket mode rule g = none)
      ∧ (startsWithStr (chars "#") (pyStrip rule) = true →
        convert_clash_rule_to_quantumult mode rule g = none
        ∧ convert_clash_rule_to_shadowrocket mode rule g = none)
      ∧ ((((splitOnChar ',' (pyStrip rule)).map pyStrip).filter
            (fun p => ¬ p.isEmpty)).length < 2 →
        convert_clash_rule_to_quantumult mode rule g = none)
      ∧ (∀ t v extras,
          ((splitOnChar ',' (pyStrip rule)).map pyStrip).filter
            (fun p => ¬ p.isEmpty) = t :: v :: extras →
          lookupAssoc RULE_TYPE_MAP_qx t = none →
          convert_clash_rule_to_quantumult mode rule g = none)
      ∧ ((splitOnChar ',' (pyStrip rule)).length < 2 →
        convert_clash_rule_to_shadowrocket mode rule g = none)
      ∧ (¬ (splitOnChar ',' (pyStrip rule)).length < 2 →
        lookupAssoc RULE_TYPE_MAP_sr
          (pyStrip ((splitOnChar ',' (pyStrip rule)).getD 0 [])) = none →
        convert_clash_rule_to_shadowrocket mode rule g = none))
    ∧ ∀ (tk : Target) (mode : Mode) (g : Str) (d : RulesDict) (line : Str),
        tk.convertRule mode line g = none →
        processLine tk mode g d line = d := by
  constructor
  · intro mode rule g
    refine ⟨?_, ?_, ?_, ?_, ?_, ?_⟩
    · intro he
      constructor
      · rw [convert_clash_rule_to_quantumult, if_pos (by simp [he])]
      · rw [convert_clash_rule_to_shadowrocket, if_pos (by simp [he])]
    · intro hh
      constructor
      · rw [convert_clash_rule_to_quantumult]
        by_cases he : (pyStrip rule).isEmpty
        · rw [if_pos he]
        · rw [if_neg he, if_pos hh]
      · rw [convert_clash_rule_to_shadowrocket]
        by_cases he : (pyStrip rule).isEmpty
        · rw [if_pos he]
        · rw [if_neg he, if_pos hh]
    · intro hlen
      rw [convert_clash_rule_to_quantumult]
      by_cases he : (pyStrip rule).isEmpty
      · rw [if_pos he]
      · rw [if_neg he]
        by_cases hh : startsWithStr (chars "#") (pyStrip rule) = true
        · rw [if_pos hh]
        · rw [if_neg hh]
          rcases hp : ((splitOnChar ',' (pyStrip rule)).map pyStrip).filter
            (fun p => ¬ p.isEmpty) with _ | ⟨t, _ | ⟨v, extras⟩⟩
          · rw [hp]
          · rw [hp]
          · rw [hp] at hlen
            simp at hlen
            omega
    · intro t v extras hp hm
      rw [convert_clash_rule_to_quantumult]
      by_cases he : (pyStrip rule).isEmpty
      · rw [if_pos he]
      · rw [if_neg he]
        by_cases hh : startsWithStr (chars "#") (pyStrip rule) = true
        · rw [if_pos hh]
        · rw [if_neg hh, hp]
          show (match lookupAssoc RULE_TYPE_MAP_qx t with
            | none => none
            | some mapped_type => qxDispatch mode g mapped_type v extras) = none
          rw [hm]
    · intro hlen
      rw [convert_clash_rule_to_shadowrocket]
      by_cases he : (pyStrip rule).isEmpty
      · rw [if_pos he]
      · rw [if_neg he]
        by_cases hh : startsWithStr (chars "#") (pyStrip rule) = true
        · rw [if_pos hh]
        · rw [if_neg hh, if_pos hlen]
    · intro hlen hm
      rw [convert_clash_rule_to_shadowrocket]
      by_cases he : (pyStrip rule).isEmpty
      · rw [if_pos he]
      · rw [if_neg he]
        by_cases hh : startsWithStr (chars "#") (pyStrip rule) = true
        · rw [if_pos hh]
        · rw [if_neg hh, if_neg hlen]
          exact srDispatch_none_of_table_miss hm
  · intro tk mode g d line h
    rw [processLine, h]

theorem claim_C5_witness :
    (convert_clash_rule_to_quantumult Mode.list (chars "  ") (chars "G") = none
      ∧ convert_clash_rule_to_shadowrocket Mode.list (chars "  ") (chars "G") = none)
    ∧ convert_clash_rule_to_quantumult Mode.list (chars "FOO,bar") (chars "G") = none
    ∧ processLine qxTarget Mode.list (chars "G") [] (chars "FOO,bar") = [] := by
  refine ⟨(claim_C5_amended.1 Mode.list (chars "  ") (chars "G")).1 (by decide),
    ?_, ?_⟩
  · exact (claim_C5_amended.1 Mode.list (chars "FOO,bar") (chars "G")).2.2.2.1
      (chars "FOO") (chars "bar") [] (by decide) (by decide)
  · exact claim_C5_amended.2 qxTarget Mode.list (chars "G") []
      (chars "FOO,bar") (by decide)

theorem convert_qx_eq_dispatch {mode : Mode} {rule g t v : Str}
    {extras : List Str}
    (h1 : ¬ (pyStrip rule).isEmpty = true)
    (h2 : ¬ startsWithStr (chars "#") (pyStrip rule) = true)
    (hp : ((splitOnChar ',' (pyStrip rule)).map pyStrip).filter
        (fun p => ¬ p.isEmpty) = t :: v :: extras) :
    convert_clash_rule_to_quantumult mode rule g
      = match lookupAssoc RULE_TYPE_MAP_qx t with
        | none => none
        | some m => qxDispatch mode g m v extras := by
  rw [convert_clash_rule_to_quantumult, if_neg h1, if_neg h2, hp]

theorem convert_sr_eq_dispatch {mode : Mode} {rule g : Str}
    (h1 : ¬ (pyStrip rule).isEmpty = true)
    (h2 : ¬ startsWithStr (chars "#") (pyStrip rule) = true)
    (h3 : ¬ (splitOnChar ',' (pyStrip rule)).length < 2) :
    convert_clash_rule_to_shadowrocket mode rule g
      = srDispatch mode g
          (pyStrip ((splitOnChar ',' (pyStrip rule)).getD 0 []))
          (pyStrip ((splitOnChar ',' (pyStrip rule)).getD 1 [])) := by
  rw [convert_clash_rule_to_shadowrocket, if_neg h1, if_neg h2, if_neg h3]

theorem qxTable_cases {t m : Str}
    (h : lookupAssoc RULE_TYPE_MAP_qx t = some m) :
    (t = chars "DOMAIN" ∧ m = chars "HOST")
    ∨ (t = chars "DOMAIN-SUFFIX" ∧ m = chars "HOST-SUFFIX")
    ∨ (t = chars "DOMAIN-KEYWORD" ∧ m = chars "HOST-KEYWORD")
    ∨ (t = chars "IP-CIDR" ∧ m = chars "IP-CIDR")
    ∨ (t = chars "IP-CIDR6" ∧ m = chars "IP-CIDR6")
    ∨ (t = chars "GEOIP" ∧ m = chars "GEOIP")
    ∨ (t = chars "MATCH" ∧ m = chars "FINAL") := by
  simp only [RULE_TYPE_MAP_qx, lookupAssoc] at h
  split_ifs at h with k1 k2 k3 k4 k5 k6 k7
  · exact Or.inl ⟨k1.symm, (Option.some.injEq _ _ ▸ h).symm⟩
  · exact Or.inr (Or.inl ⟨k2.symm, (Option.some.injEq _ _ ▸ h).symm⟩)
  · exact Or.inr (Or.inr (Or.inl ⟨k3.symm, (Option.some.injEq _ _ ▸ h).symm⟩))
  · exact Or.inr (Or.inr (Or.inr (Or.inl
      ⟨k4.symm, (Option.some.injEq _ _ ▸ h).symm⟩)))
  · exact Or.inr (Or.inr (Or.inr (Or.inr (Or.inl
      ⟨k5.symm, (Option.some.injEq _ _ ▸ h).symm⟩))))
  · exact Or.inr (Or.inr (Or.inr (Or.inr (Or.inr (Or.inl
      ⟨k6.symm, (Option.some.injEq _ _ ▸ h).symm⟩)))))
  · exact Or.inr (Or.inr (Or.inr (Or.inr (Or.inr (Or.inr
      ⟨k7.symm, (Option.some.injEq _ _ ▸ h).symm⟩)))))

theorem srTable_cases {t m : Str}
    (h : lookupAssoc RULE_TYPE_MAP_sr t = some m) :
    (t = chars "DOMAIN" ∧ m = chars "DOMAIN")
    ∨ (t = chars "DOMAIN-SUFFIX" ∧ m = chars "DOMAIN-SUFFIX")
    ∨ (t = chars "DOMAIN-KEYWORD" ∧ m = chars "DOMAIN-KEYWORD")
    ∨ (t = chars "IP-CIDR" ∧ m = chars "IP-CIDR")
    ∨ (t = chars "GEOIP" ∧ m = chars "GEOIP")
    ∨ (t = chars "MATCH" ∧ m = chars "FINAL") := by
  simp only [RULE_TYPE_MAP_sr, lookupAssoc] at h
  split_ifs at h with k1 k2 k3 k4 k5 k6
  · exact Or.inl ⟨k1.symm, (Option.some.injEq _ _ ▸ h).symm⟩
  · exact Or.inr (Or.inl ⟨k2.symm, (Option.some.injEq _ _ ▸ h).symm⟩)
  · exact Or.inr (Or.inr (Or.inl ⟨k3.symm, (Option.some.injEq _ _ ▸ h).symm⟩))
  · exact Or.inr (Or.inr (Or.inr (Or.inl
      ⟨k4.symm, (Option.some.injEq _ _ ▸ h).symm⟩)))
  · exact Or.inr (Or.inr (Or.inr (Or.inr (Or.inl
      ⟨k5.symm, (Option.some.injEq _ _ ▸ h).symm⟩))))
  · exact Or.inr (Or.inr (Or.inr (Or.inr (Or.inr
      ⟨k6.symm, (Option.some.injEq _ _ ▸ h).symm⟩))))

/-- C3: a rule whose first field is a type in the rewrite table is
translated by rewriting the type through the table, keeping the value
field (except FINAL, which carries only the policy) and appending the
policy — the POLICY_MAP entry (default `proxy`/`PROXY`) in list mode, the
policy-group name itself in full mode; for Shadowrocket the table is the
identity except MATCH→FINAL. -/
theorem claim_C3 :
    (∀ (mode : Mode) (rule g t v : Str) (extras : List Str) (m : Str),
      ¬ (pyStrip rule).isEmpty = true →
      ¬ startsWithStr (chars "#") (pyStrip rule) = true →
      ((splitOnChar ',' (pyStrip rule)).map pyStrip).filter
        (fun p => ¬ p.isEmpty) = t :: v :: extras →
      lookupAssoc RULE_TYPE_MAP_qx t = some m →
      ((m = chars "HOST" ∨ m = chars "HOST-SUFFIX" ∨ m = chars "HOST-KEYWORD" →
        convert_clash_rule_to_quantumult mode rule g
          = some (m ++ ',' :: v ++ ',' :: qxPolicy mode g))
      ∧ (m = chars "IP-CIDR" ∨ m = chars "IP-CIDR6" →
        convert_clash_rule_to_quantumult mode rule g
          = some (m ++ ',' :: v ++ ',' :: qxPolicy mode g ++ qxFlagPart extras))
      ∧ (m = chars "GEOIP" →
        convert_clash_rule_to_quantumult mode rule g
          = some (chars "GEOIP," ++ v ++ ',' :: qxPolicy mode g))
      ∧ (m = chars "FINAL" →
        convert_clash_rule_to_quantumult mode rule g
          = some (chars "FINAL," ++ qxPolicy mode g))))
    ∧ (∀ (mode : Mode) (rule g : Str),
      ¬ (pyStrip rule).isEmpty = true →
      ¬ startsWithStr (chars "#") (pyStrip rule) = true →
      ¬ (splitOnChar ',' (pyStrip rule)).length < 2 →
      ∀ m, lookupAssoc RULE_TYPE_MAP_sr
          (pyStrip ((splitOnChar ',' (pyStrip rule)).getD 0 [])) = some m →
        ((pyStrip ((splitOnChar ',' (pyStrip rule)).getD 0 []) = chars "MATCH" →
          m = chars "FINAL"
          ∧ convert_clash_rule_to_shadowrocket mode rule g
            = some (chars "FINAL," ++ srPolicy mode g))
        ∧ (pyStrip ((splitOnChar ',' (pyStrip rule)).getD 0 []) ≠ chars "MATCH" →
          m = pyStrip ((splitOnChar ',' (pyStrip rule)).getD 0 [])
          ∧ convert_clash_rule_to_shadowrocket mode rule g
            = some (m ++ ',' ::
                pyStrip ((splitOnChar ',' (pyStrip rule)).getD 1 [])
                ++ ',' :: srPolicy mode g
                ++ (if m = chars "IP-CIDR" then chars ",no-resolve"
                    else []))))) := by
  constructor
  · intro mode rule g t v extras m h1 h2 hp hm
    have hc := @convert_qx_eq_dispatch mode rule g t v extras h1 h2 hp
    rw [hm] at hc
    change convert_clash_rule_to_quantumult mode rule g
      = qxDispatch mode g m v extras at hc
    refine ⟨?_, ?_, ?_, ?_⟩
    · rintro (rfl | rfl | rfl) <;>
        (rw [hc, qxDispatch, if_pos (by decide)])
    · rintro (rfl | rfl) <;>
        (rw [hc, qxDispatch, if_neg (by decide), if_pos (by decide)])
    · rintro rfl
      rw [hc, qxDispatch, if_neg (by decide), if_neg (by decide),
        if_pos (by decide)]
    · rintro rfl
      rw [hc, qxDispatch, if_neg (by decide), if_neg (by decide),
        if_neg (by decide), if_pos (by decide)]
  · intro mode rule g h1 h2 h3 m hm
    have hc := @convert_sr_eq_dispatch mode rule g h1 h2 h3
    rcases srTable_cases hm with ⟨hrt, rfl⟩ | ⟨hrt, rfl⟩ | ⟨hrt, rfl⟩ |
      ⟨hrt, rfl⟩ | ⟨hrt, rfl⟩ | ⟨hrt, rfl⟩
    · refine ⟨fun hmm => absurd (hrt ▸ hmm) (by decide), fun _ => ⟨hrt.symm, ?_⟩⟩
      rw [hc, hrt, srDispatch, if_pos (Or.inl rfl), if_neg (by decide),
        List.append_nil]
    · refine ⟨fun hmm => absurd (hrt ▸ hmm) (by decide), fun _ => ⟨hrt.symm, ?_⟩⟩
      rw [hc, hrt, srDispatch, if_pos (Or.inr (Or.inl rfl)),
        if_neg (by decide), List.append_nil]
    · refine ⟨fun hmm => absurd (hrt ▸ hmm) (by decide), fun _ => ⟨hrt.symm, ?_⟩⟩
      rw [hc, hrt, srDispatch, if_pos (Or.inr (Or.inr rfl)),
        if_neg (by decide), List.append_nil]
    · refine ⟨fun hmm => absurd (hrt ▸ hmm) (by decide), fun _ => ⟨hrt.symm, ?_⟩⟩
      rw [hc, hrt, srDispatch, if_neg (by decide), if_pos rfl,
        if_pos (by decide)]
    · refine ⟨fun hmm => absurd (hrt ▸ hmm) (by decide), fun _ => ⟨hrt.symm, ?_⟩⟩
      rw [hc, hrt, srDispatch, if_neg (by decide), if_neg (by decide),
        if_pos rfl, if_neg (by decide), List.append_nil]
    · refine ⟨fun _ => ⟨rfl, ?_⟩, fun hne => absurd hrt hne⟩
      rw [hc, hrt, srDispatch, if_neg (by decide), if_neg (by decide),
        if_neg (by decide), if_pos rfl]

theorem claim_C3_witness :
    convert_clash_rule_to_quantumult Mode.list (chars "DOMAIN,example.com")
        (chars "🚀 节点选择")
      = some (chars "HOST" ++ ',' :: chars "example.com" ++ ','
          :: qxPolicy Mode.list (chars "🚀 节点选择"))
    ∧ (chars "DOMAIN-SUFFIX"
        = pyStrip ((splitOnChar ','
            (pyStrip (chars "DOMAIN-SUFFIX,x.y"))).getD 0 [])
      ∧ convert_clash_rule_to_shadowrocket Mode.full
          (chars "DOMAIN-SUFFIX,x.y") (chars "G")
        = some (chars "DOMAIN-SUFFIX" ++ ','
            :: pyStrip ((splitOnChar ','
                (pyStrip (chars "DOMAIN-SUFFIX,x.y"))).getD 1 [])
            ++ ',' :: srPolicy Mode.full (chars "G")
            ++ (if chars "DOMAIN-SUFFIX" = chars "IP-CIDR"
                then chars ",no-resolve" else []))) := by
  constructor
  · exact (claim_C3.1 Mode.list (chars "DOMAIN,example.com")
      (chars "🚀 节点选择") (chars "DOMAIN") (chars "example.com") []
      (chars "HOST") (by decide) (by decide) (by decide) (by decide)).1
      (Or.inl rfl)
  · exact (claim_C3.2 Mode.full (chars "DOMAIN-SUFFIX,x.y") (chars "G")
      (by decide) (by decide) (by decide) (chars "DOMAIN-SUFFIX")
      (by decide)).2 (by decide)

theorem lookup_POLICY_MAP_qx_no_comma {g v : Str}
    (h : lookupAssoc POLICY_MAP_qx g = some v) : ',' ∉ v := by
  have hmem := lookupAssoc_mem h
  have hv : v ∈ POLICY_MAP_qx.map Prod.snd :=
    List.mem_map.mpr ⟨(g, v), hmem, rfl⟩
  have hall : ∀ x ∈ POLICY_MAP_qx.map Prod.snd, ',' ∉ x := by decide
  exact hall v hv

theorem qxPolicy_no_comma {mode : Mode} {g : Str} (hg : ',' ∉ g) :
    ',' ∉ qxPolicy mode g := by
  rw [qxPolicy]
  by_cases hm : mode = Mode.list
  · rw [if_pos hm]
    rcases hl : lookupAssoc POLICY_MAP_qx g with _ | v
    · decide
    · exact lookup_POLICY_MAP_qx_no_comma hl
  · rw [if_neg hm]
    exact hg

theorem filtered_parts_no_comma {rule x : Str}
    (hx : x ∈ ((splitOnChar ',' (pyStrip rule)).map pyStrip).filter
      (fun p => ¬ p.isEmpty)) : ',' ∉ x := by
  have hx2 := List.mem_of_mem_filter hx
  rcases List.mem_map.mp hx2 with ⟨p, hp, rfl⟩
  intro hm
  exact not_mem_of_mem_splitOnChar hp (mem_of_mem_pyStrip hm)

theorem qxFlags_ne_nil (extras : List Str) : qxFlags extras ≠ [] := by
  simp only [qxFlags]
  by_cases ha : (extras.filter (fun f => ¬ f.isEmpty)).any
      (fun f => lowerStr f = chars "no-resolve")
  · rw [if_pos ha]
    intro h
    rw [h] at ha
    simp at ha
  · rw [if_neg ha]
    simp

theorem qxFlagPart_eq (extras : List Str) :
    qxFlagPart extras
      = ',' :: List.intercalate (chars ",") (qxFlags extras) := by
  rw [qxFlagPart,
    if_neg (fun h => qxFlags_ne_nil extras (List.isEmpty_iff.mp h))]

theorem qxFlags_no_comma {extras : List Str}
    (hex : ∀ f ∈ extras, ',' ∉ f) :
    ∀ f ∈ qxFlags extras, ',' ∉ f := by
  intro f hf
  simp only [qxFlags] at hf
  by_cases ha : (extras.filter (fun f => ¬ f.isEmpty)).any
      (fun f => lowerStr f = chars "no-resolve")
  · rw [if_pos ha] at hf
    exact hex f (List.mem_of_mem_filter hf)
  · rw [if_neg ha] at hf
    rcases List.mem_append.mp hf with h | h
    · exact hex f (List.mem_of_mem_filter h)
    · rw [List.mem_singleton.mp h]
      decide

theorem qxFlags_count (extras : List Str) :
    ((qxFlags extras).filter (fun f => lowerStr f = chars "no-resolve")).length
      = max 1 (((extras.filter (fun f => ¬ f.isEmpty)).filter
          (fun f => lowerStr f = chars "no-resolve")).length) := by
  simp only [qxFlags]
  by_cases ha : (extras.filter (fun f => ¬ f.isEmpty)).any
      (fun f => lowerStr f = chars "no-resolve")
  · rw [if_pos ha]
    rcases List.any_eq_true.mp ha with ⟨x, hx, hpx⟩
    have hlen : 0 < ((extras.filter (fun f => ¬ f.isEmpty)).filter
        (fun f => lowerStr f = chars "no-resolve")).length :=
      List.length_pos.mpr (fun h =>
        (List.mem_filter.mpr ⟨hx, hpx⟩ : x ∈ _) |> (h ▸ List.not_mem_nil x))
    omega
  · rw [if_neg ha]
    rw [List.filter_append]
    have h0 : (extras.filter (fun f => ¬ f.isEmpty)).filter
        (fun f => lowerStr f = chars "no-resolve") = [] := by
      rw [List.filter_eq_nil_iff]
      intro x hx hpx
      exact ha (List.any_eq_true.mpr ⟨x, hx, hpx⟩)
    have h1 : [chars "no-resolve"].filter
        (fun f => lowerStr f = chars "no-resolve") = [chars "no-resolve"] := by
      decide
    rw [h0, h1]
    rfl

theorem splitOnChar_out {m v pol J : Str}
    (hm : ',' ∉ m) (hv : ',' ∉ v) (hpol : ',' ∉ pol) :
    splitOnChar ',' (m ++ ',' :: v ++ ',' :: pol ++ ',' :: J)
      = m :: v :: pol :: splitOnChar ',' J := by
  rw [List.append_assoc, List.append_assoc, List.cons_append, List.cons_append,
    splitOnChar_append_cons hm, splitOnChar_append_cons hv,
    splitOnChar_append_cons hpol]

/-- C9 as stated is false: when the input rule already lists `no-resolve`
twice among its extras, the translation keeps both copies, so the flag
appears twice, not exactly once. -/
theorem claim_C9_counterexample :
    convert_clash_rule_to_quantumult Mode.list
      (chars "IP-CIDR,1.0.0.0/8,no-resolve,no-resolve") (chars "G")
      = some (chars "IP-CIDR,1.0.0.0/8,proxy,no-resolve,no-resolve")
    ∧ (((splitOnChar ','
          (chars "IP-CIDR,1.0.0.0/8,proxy,no-resolve,no-resolve")).drop 3).filter
        (fun f => lowerStr f = chars "no-resolve")).length = 2 := by
  constructor
  · decide
  · decide

/-- C9 (amended): every accepted IP-CIDR/IP-CIDR6 rule's Quantumult X
translation carries `no-resolve` after the policy: the flag is appended
once when no extra field equals it case-insensitively, and the non-empty
extras are kept unchanged when one does, so among the fields after the
policy the flag occurs `max 1 k` times, `k` being its count among the
input's non-empty extra fields. -/
theorem claim_C9_amended (mode : Mode) (rule g t v : Str) (extras : List Str)
    (h1 : ¬ (pyStrip rule).isEmpty = true)
    (h2 : ¬ startsWithStr (chars "#") (pyStrip rule) = true)
    (hp : ((splitOnChar ',' (pyStrip rule)).map pyStrip).filter
        (fun p => ¬ p.isEmpty) = t :: v :: extras)
    (ht : t = chars "IP-CIDR" ∨ t = chars "IP-CIDR6")
    (hg : ',' ∉ g) :
    convert_clash_rule_to_quantumult mode rule g
      = some (t ++ ',' :: v ++ ',' :: qxPolicy mode g ++ qxFlagPart extras)
    ∧ (((splitOnChar ',' (t ++ ',' :: v ++ ',' :: qxPolicy mode g
          ++ qxFlagPart extras)).drop 3).filter
        (fun f => lowerStr f = chars "no-resolve")).length
      = max 1 (((extras.filter (fun f => ¬ f.isEmpty)).filter
          (fun f => lowerStr f = chars "no-resolve")).length) := by
  have hm : lookupAssoc RULE_TYPE_MAP_qx t = some t := by
    rcases ht with rfl | rfl <;> decide
  have hc := @convert_qx_eq_dispatch mode rule g t v extras h1 h2 hp
  rw [hm] at hc
  change convert_clash_rule_to_quantumult mode rule g
    = qxDispatch mode g t v extras at hc
  have hdq : qxDispatch mode g t v extras
      = some (t ++ ',' :: v ++ ',' :: qxPolicy mode g ++ qxFlagPart extras) := by
    rcases ht with rfl | rfl <;>
      (rw [qxDispatch, if_neg (by decide), if_pos (by decide)])
  refine ⟨hc.trans hdq, ?_⟩
  have hv : ',' ∉ v := filtered_parts_no_comma
    (by rw [hp]; exact List.mem_cons_of_mem _ (List.mem_cons_self _ _))
  have htc : ',' ∉ t := by rcases ht with rfl | rfl <;> decide
  have hexc : ∀ f ∈ extras, ',' ∉ f := fun f hf => filtered_parts_no_comma
    (by rw [hp]; exact List.mem_cons_of_mem _ (List.mem_cons_of_mem _ hf))
  have hpol := @qxPolicy_no_comma mode g hg
  rw [qxFlagPart_eq, splitOnChar_out htc hv hpol,
    show chars "," = ([','] : Str) from rfl,
    splitOnChar_intercalate (qxFlags_ne_nil extras) (qxFlags_no_comma hexc)]
  exact qxFlags_count extras

theorem claim_C9_witness :
    convert_clash_rule_to_quantumult Mode.list
        (chars "IP-CIDR,10.0.0.0/8,no-resolve") (chars "G")
      = some (chars "IP-CIDR" ++ ',' :: chars "10.0.0.0/8" ++ ','
          :: qxPolicy Mode.list (chars "G") ++ qxFlagPart [chars "no-resolve"])
    ∧ (((splitOnChar ',' (chars "IP-CIDR" ++ ',' :: chars "10.0.0.0/8" ++ ','
          :: qxPolicy Mode.list (chars "G")
          ++ qxFlagPart [chars "no-resolve"])).drop 3).filter
        (fun f => lowerStr f = chars "no-resolve")).length
      = max 1 ((([chars "no-resolve"].filter (fun f => ¬ f.isEmpty)).filter
          (fun f => lowerStr f = chars "no-resolve")).length) :=
  claim_C9_amended Mode.list (chars "IP-CIDR,10.0.0.0/8,no-resolve")
    (chars "G") (chars "IP-CIDR") (chars "10.0.0.0/8") [chars "no-resolve"]
    (by decide) (by decide) (by decide) (Or.inl rfl) (by decide)

end SSRConv


